import Mathlib

/-!
# go-store: a shallow embedding of the Redis store adapter and the configuration helpers

The development has three layers.

* `strconv`: the two Go standard-library conversions the repository calls
  (`strconv.ParseInt` in base 10 and `strconv.ParseBool`) together with the decimal
  formatter used when an integer is written to the wire.
* `configuration`: `GetString`, `GetInt`, `GetDuration`, `GetBool` from
  `vendor/github.com/awkhan/go-utility/configuration/configuration.go`.
* `store`: every method of `Redis` from `store/redisstore.go`, written against an explicit
  pool state (connections handed out, commands issued) and an arbitrary remote; the redigo
  reply helpers; and a model of the Redis server for the string and list commands.

Go `int` is taken to be 64 bits wide. Go strings are Lean strings; every function that looks
inside one works on its list of characters.
-/

/-! ## Go errors -/

/-- The two causes a `strconv.NumError` can carry. -/
inductive NumErrKind where
  /-- Go `strconv.ErrSyntax` -/
  | ErrSyntax
  /-- Go `strconv.ErrRange` -/
  | ErrRange
  deriving DecidableEq, Repr

/-- Go `error` values that can reach a caller of this repository. -/
inductive GoError where
  /-- an error made by `errors.New` or `fmt.Errorf`, or any I/O error of the connection -/
  | new (msg : String)
  /-- Redigo `redis.Error`: an error reply sent by the server -/
  | redis (msg : String)
  /-- Redigo `redis.ErrNil` -/
  | ErrNil
  /-- Go `*strconv.NumError` with its `Func`, `Num` and `Err` fields -/
  | NumError (fn : String) (num : String) (kind : NumErrKind)
  deriving DecidableEq, Repr

/-- The `Error()` method. -/
def GoError.Error : GoError → String
  | .new msg => msg
  | .redis msg => msg
  | .ErrNil => "redigo: nil returned"
  | .NumError fn num .ErrSyntax => "strconv." ++ fn ++ ": parsing " ++ num ++ ": invalid syntax"
  | .NumError fn num .ErrRange => "strconv." ++ fn ++ ": parsing " ++ num ++ ": value out of range"

/-! ## Decimal numerals -/

/-- Value of a run of decimal digits read after `acc`, with no bound on its size; `none` when
    a character is not a digit. -/
def decimalValue : List Char → Nat → Option Nat
  | [], acc => some acc
  | c :: cs, acc =>
    if 48 ≤ c.toNat ∧ c.toNat ≤ 57 then decimalValue cs (acc * 10 + (c.toNat - 48)) else none

/-! ## strconv -/

namespace strconv

/-- Largest `uint64`. -/
def maxUint64 : Nat := 2 ^ 64 - 1

/-- Conversion of a 64-bit pattern to `int64` (two-complement wrap-around). -/
def toInt64 (v : Int) : Int := (v + 2 ^ 63) % 2 ^ 64 - 2 ^ 63

/-- Modelled from the spec: the digit loop of `strconv.ParseUint(s, 10, 64)` of the Go
    standard library, which is not part of the repository: every byte must be a decimal digit
    (`ErrSyntax` otherwise), and the running value must stay within `uint64`
    (`ErrRange` otherwise). -/
def parseUintLoop : List Char → Nat → Except NumErrKind Nat
  | [], n => .ok n
  | c :: cs, n =>
    if 48 ≤ c.toNat ∧ c.toNat ≤ 57 then
      let d := c.toNat - 48
      -- cutoff = maxUint64/10 + 1: n*10 overflows
      if n ≥ maxUint64 / 10 + 1 then .error .ErrRange
      else
        let n1 := n * 10 + d
        -- n+d overflows
        if n1 > maxUint64 then .error .ErrRange
        else parseUintLoop cs n1
    else .error .ErrSyntax

/-- Modelled from the spec: `strconv.ParseUint(s, 10, 64)` of the Go standard library, as
    value and error cause. -/
def ParseUint (s : List Char) : Nat × Option NumErrKind :=
  if s = [] then (0, some .ErrSyntax)
  else
    match parseUintLoop s 0 with
    | .ok n => (n, none)
    | .error .ErrSyntax => (0, some .ErrSyntax)
    | .error .ErrRange => (maxUint64, some .ErrRange)

/-- Modelled from the spec: `strconv.ParseInt(s, 10, 64)` of the Go standard library; `fn` is
    the function name recorded in the error. -/
def ParseIntNamed (fn : String) (s : String) : Int × Option GoError :=
  if s.data = [] then (0, some (.NumError fn s .ErrSyntax))
  else
    -- pick off leading sign
    let neg := s.data.head? = some '-'
    let body := if s.data.head? = some '+' ∨ s.data.head? = some '-' then s.data.tail else s.data
    -- convert unsigned and check range
    match ParseUint body with
    | (_, some .ErrSyntax) => (0, some (.NumError fn s .ErrSyntax))
    | (un, _) =>
      let cutoff : Nat := 2 ^ 63
      if ¬ neg ∧ un ≥ cutoff then ((cutoff : Int) - 1, some (.NumError fn s .ErrRange))
      else if neg ∧ un > cutoff then (-(cutoff : Int), some (.NumError fn s .ErrRange))
      else (if neg then -(un : Int) else (un : Int), none)

/-- Modelled from the spec: `strconv.ParseInt(s, 10, 64)` of the Go standard library; with
    64-bit `int` also `strconv.ParseInt(s, 10, 0)`. -/
def ParseInt (s : String) : Int × Option GoError := ParseIntNamed "ParseInt" s

/-- Modelled from the spec: `strconv.Atoi(s)` of the Go standard library, documented as
    `ParseInt(s, 10, 0)` converted to `int`; errors carry the name `Atoi`. -/
def Atoi (s : String) : Int × Option GoError := ParseIntNamed "Atoi" s

/-- Modelled from the spec: `strconv.ParseBool` of the Go standard library. -/
def ParseBool (str : String) : Bool × Option GoError :=
  if str = "1" ∨ str = "t" ∨ str = "T" ∨ str = "true" ∨ str = "TRUE" ∨ str = "True" then
    (true, none)
  else if str = "0" ∨ str = "f" ∨ str = "F" ∨ str = "false" ∨ str = "FALSE" ∨ str = "False" then
    (false, none)
  else (false, some (.NumError "ParseBool" str .ErrSyntax))

/-- The digit written for `d < 10`. -/
def digitChar (d : Nat) : Char := Char.ofNat (48 + d)

/-- Modelled from the spec: the digit loop of `strconv.FormatInt`: the decimal digits of `u`,
    most significant first, put in front of `acc`; `fuel` bounds the number of digits. -/
def formatBits : Nat → Nat → List Char → List Char
  | 0, _, acc => acc
  | fuel + 1, u, acc =>
    if u ≥ 10 then formatBits fuel (u / 10) (digitChar (u % 10) :: acc)
    else digitChar u :: acc

/-- Modelled from the spec: `strconv.FormatInt(v, 10)` of the Go standard library for an
    `int64`: at most twenty digits after the sign. -/
def FormatInt (v : Int) : String :=
  if v < 0 then String.mk ('-' :: formatBits 20 v.natAbs []) else String.mk (formatBits 20 v.natAbs [])

end strconv

/-! ## configuration -/

namespace configuration

/-- The process environment: `os.Getenv` gives the empty string for an unset variable. -/
abbrev Environ := String → String

/-- GetString returns string value of the environment variable key. -/
def GetString (env : Environ) (key : String) : String := env key

/-- GetInt returns the integer value of environment variable key, 0 if the conversion cannot
    occur. (The line written to the log is not part of the result.) -/
def GetInt (env : Environ) (key : String) : Int :=
  let v := GetString env key
  match strconv.Atoi v with
  | (_, some _) => 0
  | (iv, none) => iv

/-- GetDuration returns the duration value of environment variable key: `time.Duration(v)`,
    an `int64` count of nanoseconds. -/
def GetDuration (env : Environ) (key : String) : Int :=
  let v := GetInt env key
  strconv.toInt64 v

/-- GetBool returns the boolean value of the environment variable key, false if the
    conversion cannot occur. -/
def GetBool (env : Environ) (key : String) : Bool :=
  let v := GetString env key
  match strconv.ParseBool v with
  | (_, some _) => false
  | (bv, none) => bv

/-! ### What the specification calls a valid decimal integer and a valid boolean -/

/-- The text after an optional leading sign. -/
def unsignedPart : List Char → List Char
  | '+' :: cs => cs
  | '-' :: cs => cs
  | cs => cs

/-- Specification of a valid decimal integer: an optional sign, then at least one decimal
    digit, denoting a number that an `int` can hold. -/
def validInt (s : String) : Option Int :=
  let body := unsignedPart s.data
  if body = [] then none
  else
    match decimalValue body 0 with
    | none => none
    | some n =>
      let v : Int := if s.data.head? = some '-' then -(n : Int) else (n : Int)
      if -(2 : Int) ^ 63 ≤ v ∧ v < (2 : Int) ^ 63 then some v else none

/-- Specification of a valid boolean: one of the twelve spellings Go accepts. -/
def validBool (s : String) : Option Bool :=
  if s ∈ ["1", "t", "T", "true", "TRUE", "True"] then some true
  else if s ∈ ["0", "f", "F", "false", "FALSE", "False"] then some false
  else none

end configuration

/-! ## store: data model -/

namespace store

/-- DataTypeString is a string data type. -/
def DataTypeString : Int := 0
/-- DataTypeBool is a bool data type. -/
def DataTypeBool : Int := 1
/-- DataTypeInt is a int data type. -/
def DataTypeInt : Int := 2
/-- DataTypeInt64 is a int64 data type. -/
def DataTypeInt64 : Int := 3

/-- A Go value handed to `conn.Do` as a command argument (`interface{}`); floating-point
    arguments are left out. -/
inductive Value where
  | string (s : String)
  | bytes (b : String)
  | int (n : Int)
  | int64 (n : Int)
  | bool (b : Bool)
  | nil
  deriving DecidableEq, Repr

/-- One element of an array reply. -/
inductive Elem where
  | nil
  | bulk (b : String)
  | integer (n : Int)
  | status (s : String)
  | error (msg : String)
  deriving DecidableEq, Repr

/-- A reply as redigo hands it over: `nil`, `int64`, `[]byte`, `string`, `redis.Error`
    or `[]interface{}`. -/
inductive Reply where
  | nil
  | bulk (b : String)
  | integer (n : Int)
  | status (s : String)
  | error (msg : String)
  | array (xs : List Elem)
  deriving DecidableEq, Repr

/-- The `interface{}` results of `PopItemFromList` and `ItemsFromList`. A nil slice and an
    empty slice are both the empty list. -/
inductive Iface where
  | nil
  | string (s : String)
  | bool (b : Bool)
  | int (n : Int)
  | int64 (n : Int)
  | strings (xs : List String)
  | ints (xs : List Int)
  deriving DecidableEq, Repr

/-- What `conn.Do` returns. -/
abbrev DoResult := Reply × Option GoError

/-- One call of `conn.Do`: the connection used, the command and what came back. -/
structure Exchange where
  conn : Nat
  cmd : String
  args : List Value
  reply : Reply
  err : Option GoError
  deriving DecidableEq, Repr

/-- Modelled from the spec: the external pooled-connection provider (`redis.Pool` of redigo)
    as this package sees it. `exec` is what one command does to the remote
    (any reply, any error, any change of the remote state `σ`); `held` lists the connections
    handed out and not yet closed; `opened` counts every `Get`; `trace` records every `Do`. -/
structure Pool (σ : Type) where
  exec : σ → String → List Value → DoResult × σ
  remote : σ
  held : List Nat
  opened : Nat
  trace : List Exchange

/-- Modelled from the spec: `pool.Get()`, acquire a connection: hand out a fresh one. -/
def Pool.Get {σ : Type} (p : Pool σ) : Nat × Pool σ :=
  (p.opened, { p with held := p.opened :: p.held, opened := p.opened + 1 })

/-- Modelled from the spec: `conn.Do(cmd, args...)`, execute a command, returning the raw reply
    or an error: run one command on the remote and record it. -/
def Pool.Do {σ : Type} (p : Pool σ) (conn : Nat) (cmd : String) (args : List Value) :
    DoResult × Pool σ :=
  let out := p.exec p.remote cmd args
  (out.1, { p with remote := out.2,
                   trace := p.trace ++ [⟨conn, cmd, args, out.1.1, out.1.2⟩] })

/-- Modelled from the spec: `conn.Close()`, release the connection. -/
def Pool.Close {σ : Type} (p : Pool σ) (conn : Nat) : Pool σ :=
  { p with held := p.held.erase conn }

/-! ## store: the redigo reply helpers -/

/-- Modelled from the spec: `redis.String(reply, err)` of redigo, which is not part of the
    repository: decode the reply as a single string; an error passed in is passed on. -/
def redisString (reply : Reply) (err : Option GoError) : String × Option GoError :=
  match err with
  | some e => ("", some e)
  | none =>
    match reply with
    | .bulk b => (b, none)
    | .status s => (s, none)
    | .nil => ("", some .ErrNil)
    | .error msg => ("", some (.redis msg))
    | _ => ("", some (.new "redigo: unexpected type for String"))

/-- Modelled from the spec: `redis.Int64(reply, err)` of redigo: decode the reply as a 64-bit
    integer; an error passed in is passed on. -/
def redisInt64 (reply : Reply) (err : Option GoError) : Int × Option GoError :=
  match err with
  | some e => (0, some e)
  | none =>
    match reply with
    | .integer n => (n, none)
    | .bulk b => strconv.ParseInt b
    | .nil => (0, some .ErrNil)
    | .error msg => (0, some (.redis msg))
    | _ => (0, some (.new "redigo: unexpected type for Int64"))

/-- Modelled from the spec: `redis.Int(reply, err)` of redigo: decode the reply as an `int`;
    an error passed in is passed on. -/
def redisInt (reply : Reply) (err : Option GoError) : Int × Option GoError :=
  match err with
  | some e => (0, some e)
  | none =>
    match reply with
    | .integer n =>
      let x := strconv.toInt64 n
      if x ≠ n then (0, some (.new "value out of range")) else (x, none)
    | .bulk b => strconv.ParseInt b
    | .nil => (0, some .ErrNil)
    | .error msg => (0, some (.redis msg))
    | _ => (0, some (.new "redigo: unexpected type for Int"))

/-- Modelled from the spec: `redis.Bool(reply, err)` of redigo: decode the reply as a boolean;
    an error passed in is passed on. -/
def redisBool (reply : Reply) (err : Option GoError) : Bool × Option GoError :=
  match err with
  | some e => (false, some e)
  | none =>
    match reply with
    | .integer n => (n ≠ 0, none)
    | .bulk b => strconv.ParseBool b
    | .nil => (false, some .ErrNil)
    | .error msg => (false, some (.redis msg))
    | _ => (false, some (.new "redigo: unexpected type for Bool"))

/-- Modelled from the spec: the element loop of `redis.Strings` of redigo: a nil element is the
    empty string, a bulk string is itself, anything else is an error. -/
def stringsLoop : List Elem → Option (List String)
  | [] => some []
  | .nil :: es => (stringsLoop es).map (fun r => "" :: r)
  | .bulk b :: es => (stringsLoop es).map (fun r => b :: r)
  | _ :: _ => none

/-- Modelled from the spec: `redis.Strings(reply, err)` of redigo: decode the reply as a
    sequence of strings; an error passed in is passed on. -/
def redisStrings (reply : Reply) (err : Option GoError) : List String × Option GoError :=
  match err with
  | some e => ([], some e)
  | none =>
    match reply with
    | .array xs =>
      match stringsLoop xs with
      | some r => (r, none)
      | none => ([], some (.new "redigo: unexpected element type for Strings"))
    | .nil => ([], some .ErrNil)
    | .error msg => ([], some (.redis msg))
    | _ => ([], some (.new "redigo: unexpected type for Strings"))

/-- Modelled from the spec: `redis.Values(reply, err)` of redigo. -/
def redisValues (reply : Reply) (err : Option GoError) : List Elem × Option GoError :=
  match err with
  | some e => ([], some e)
  | none =>
    match reply with
    | .array xs => (xs, none)
    | .nil => ([], some .ErrNil)
    | .error msg => ([], some (.redis msg))
    | _ => ([], some (.new "redigo: unexpected type for Values"))

/-- Modelled from the spec: assignment of one array element to an `int` slot, as
    `redis.ScanSlice` of redigo does it. -/
def convertAssignInt : Elem → Int × Option GoError
  | .nil => (0, none)
  | .bulk b => strconv.Atoi b
  | .integer n =>
    let x := strconv.toInt64 n
    if x ≠ n then (0, some (.new "value out of range")) else (x, none)
  | .status _ => (0, some (.new "redigo: Scan cannot convert from Redis simple string to *int"))
  | .error msg => (0, some (.redis msg))

/-- Modelled from the spec: the element loop of `redis.ScanSlice` of redigo into a `[]int`: the
    slice has the length of the source, and the loop stops at the first element that cannot be
    assigned. -/
def scanInts : List Elem → List Int × Option GoError
  | [] => ([], none)
  | e :: es =>
    match convertAssignInt e with
    | (v, some err) =>
      (v :: List.replicate es.length 0,
        some (.new ("redigo.ScanSlice: cannot assign element: " ++ err.Error)))
    | (v, none) => ((scanInts es).1.cons v, (scanInts es).2)

/-- Modelled from the spec: `redis.Ints(reply, err)` of redigo: decode the reply as a sequence
    of integers; an error passed in is passed on. -/
def redisInts (reply : Reply) (err : Option GoError) : List Int × Option GoError :=
  match redisValues reply err with
  | (_, some e) => ([], some e)
  | (values, none) => scanInts values

/-! ## store: the Redis client (`store/redisstore.go`) -/

/-- Redis provides an interface to redis. -/
structure Redis (σ : Type) where
  redis : Pool σ

/-- NewRedisStore creates a new redis store with the supplied pool. -/
def NewRedisStore {σ : Type} (pool : Pool σ) : Redis σ := { redis := pool }

variable {σ : Type}

/-- DeleteKey deletes the key from redis. -/
def Redis.DeleteKey (r : Redis σ) (key : String) : Option GoError × Redis σ :=
  let c := r.redis.Get
  let d := c.2.Do c.1 "DEL" [.string key]
  (d.1.2, ⟨d.2.Close c.1⟩)

/-- GetString retrieves the string data stored in redis. -/
def Redis.GetString (r : Redis σ) (key : String) : (String × Option GoError) × Redis σ :=
  let c := r.redis.Get
  let d := c.2.Do c.1 "GET" [.string key]
  (redisString d.1.1 d.1.2, ⟨d.2.Close c.1⟩)

/-- GetInt64 retrieves the int64 data stored in redis. -/
def Redis.GetInt64 (r : Redis σ) (key : String) : (Int × Option GoError) × Redis σ :=
  let c := r.redis.Get
  let d := c.2.Do c.1 "GET" [.string key]
  (redisInt64 d.1.1 d.1.2, ⟨d.2.Close c.1⟩)

/-- Set sets the value for the specified key. -/
def Redis.Set (r : Redis σ) (key : String) (value : Value) : Option GoError × Redis σ :=
  let c := r.redis.Get
  let d := c.2.Do c.1 "SET" [.string key, value]
  (d.1.2, ⟨d.2.Close c.1⟩)

/-- SetHash sets the value for the specific hash key. -/
def Redis.SetHash (r : Redis σ) (key : String) (hash : String) (value : Value) :
    Option GoError × Redis σ :=
  let c := r.redis.Get
  let d := c.2.Do c.1 "HSET" [.string key, .string hash, value]
  (d.1.2, ⟨d.2.Close c.1⟩)

/-- DeleteHash deletes the hash value for the specific key. -/
def Redis.DeleteHash (r : Redis σ) (key : String) (hash : String) : Option GoError × Redis σ :=
  let c := r.redis.Get
  let d := c.2.Do c.1 "HDEL" [.string key, .string hash]
  (d.1.2, ⟨d.2.Close c.1⟩)

/-- GetHashString returns the string value of the hash. -/
def Redis.GetHashString (r : Redis σ) (key : String) (hash : String) :
    (String × Option GoError) × Redis σ :=
  let c := r.redis.Get
  let d := c.2.Do c.1 "HGET" [.string key, .string hash]
  (redisString d.1.1 d.1.2, ⟨d.2.Close c.1⟩)

/-- GetAllHashValues returns all the hash values for the key. -/
def Redis.GetAllHashValues (r : Redis σ) (key : String) :
    (List String × Option GoError) × Redis σ :=
  let c := r.redis.Get
  let d := c.2.Do c.1 "HVALS" [.string key]
  (redisStrings d.1.1 d.1.2, ⟨d.2.Close c.1⟩)

/-- GetAllHashKeys returns all the hash keys for the key. -/
def Redis.GetAllHashKeys (r : Redis σ) (key : String) :
    (List String × Option GoError) × Redis σ :=
  let c := r.redis.Get
  let d := c.2.Do c.1 "HKEYS" [.string key]
  (redisStrings d.1.1 d.1.2, ⟨d.2.Close c.1⟩)

/-- SetExpiry sets the expiry for the specified key. -/
def Redis.SetExpiry (r : Redis σ) (key : String) (seconds : Int) : Option GoError × Redis σ :=
  let c := r.redis.Get
  let d := c.2.Do c.1 "EXPIRE" [.string key, .int seconds]
  (d.1.2, ⟨d.2.Close c.1⟩)

/-- Increment increments the value of key by 1. -/
def Redis.Increment (r : Redis σ) (key : String) : Option GoError × Redis σ :=
  let c := r.redis.Get
  let d := c.2.Do c.1 "INCR" [.string key]
  (d.1.2, ⟨d.2.Close c.1⟩)

/-- Decrement decrements the value of key by 1. -/
def Redis.Decrement (r : Redis σ) (key : String) : Option GoError × Redis σ :=
  let c := r.redis.Get
  let d := c.2.Do c.1 "DECR" [.string key]
  (d.1.2, ⟨d.2.Close c.1⟩)

/-- SetAdd adds a the value to a set. -/
def Redis.SetAdd (r : Redis σ) (key : String) (value : Value) : Option GoError × Redis σ :=
  let c := r.redis.Get
  let d := c.2.Do c.1 "SADD" [.string key, value]
  (d.1.2, ⟨d.2.Close c.1⟩)

/-- GetSetStringMembers returns the string members of a set. -/
def Redis.GetSetStringMembers (r : Redis σ) (key : String) :
    (List String × Option GoError) × Redis σ :=
  let c := r.redis.Get
  let d := c.2.Do c.1 "SMEMBERS" [.string key]
  (redisStrings d.1.1 d.1.2, ⟨d.2.Close c.1⟩)

/-- SetRemove removes the value from the set. -/
def Redis.SetRemove (r : Redis σ) (key : String) (value : Value) : Option GoError × Redis σ :=
  let c := r.redis.Get
  let d := c.2.Do c.1 "SREM" [.string key, value]
  (d.1.2, ⟨d.2.Close c.1⟩)

/-- SetIsMember returns true if the value is a member of the set. -/
def Redis.SetIsMember (r : Redis σ) (key : String) (value : Value) :
    (Bool × Option GoError) × Redis σ :=
  let c := r.redis.Get
  let d := c.2.Do c.1 "SISMEMBER" [.string key, value]
  (redisBool d.1.1 d.1.2, ⟨d.2.Close c.1⟩)

/-- PushItemToList pushes an item to the list, at the end when `atEnd`, in front otherwise. -/
def Redis.PushItemToList (r : Redis σ) (key : String) (value : Value) (atEnd : Bool) :
    Option GoError × Redis σ :=
  let c := r.redis.Get
  let cmd := if atEnd then "RPUSH" else "LPUSH"
  let d := c.2.Do c.1 cmd [.string key, value]
  (d.1.2, ⟨d.2.Close c.1⟩)

/-- PopItemFromList pops an item from the front or the back of the list. -/
def Redis.PopItemFromList (r : Redis σ) (key : String) (dataType : Int) (atEnd : Bool) :
    (Iface × Option GoError) × Redis σ :=
  let c := r.redis.Get
  let cmd := if atEnd then "RPOP" else "LPOP"
  let d := c.2.Do c.1 cmd [.string key]
  let val := d.1.1
  let err := d.1.2
  let out : Iface × Option GoError :=
    if dataType = DataTypeString then (.string (redisString val err).1, (redisString val err).2)
    else if dataType = DataTypeBool then (.bool (redisBool val err).1, (redisBool val err).2)
    else if dataType = DataTypeInt then (.int (redisInt val err).1, (redisInt val err).2)
    else if dataType = DataTypeInt64 then (.int64 (redisInt64 val err).1, (redisInt64 val err).2)
    else (.nil, some (.new "Invalid data type"))
  (out, ⟨d.2.Close c.1⟩)

/-- ItemsFromList returns a list of items from the list from the start to end. -/
def Redis.ItemsFromList (r : Redis σ) (key : String) (dataType : Int) (start end_ : Int) :
    (Iface × Option GoError) × Redis σ :=
  let c := r.redis.Get
  let d := c.2.Do c.1 "LRANGE" [.string key, .int start, .int end_]
  let val := d.1.1
  let err := d.1.2
  let out : Iface × Option GoError :=
    if dataType = DataTypeString then (.strings (redisStrings val err).1, (redisStrings val err).2)
    else if dataType = DataTypeInt then (.ints (redisInts val err).1, (redisInts val err).2)
    else (.nil, some (.new "Invalid data type"))
  (out, ⟨d.2.Close c.1⟩)

/-- RemoveItemFromList removes the item from the list with the count occurances. -/
def Redis.RemoveItemFromList (r : Redis σ) (key : String) (count : Int) (value : Value) :
    Option GoError × Redis σ :=
  let c := r.redis.Get
  let d := c.2.Do c.1 "LREM" [.string key, .int count, value]
  (d.1.2, ⟨d.2.Close c.1⟩)

/-- LengthOfList returns the lenght of the list. -/
def Redis.LengthOfList (r : Redis σ) (key : String) : (Int × Option GoError) × Redis σ :=
  let c := r.redis.Get
  let d := c.2.Do c.1 "LLEN" [.string key]
  (redisInt d.1.1 d.1.2, ⟨d.2.Close c.1⟩)

/-- ClearDataStore clears up all the keys in the redis datastore. -/
def Redis.ClearDataStore (r : Redis σ) : Redis σ :=
  let c := r.redis.Get
  let d := c.2.Do c.1 "FLUSHDB" []
  ⟨d.2.Close c.1⟩

/-! ### The `Store` interface as a type of calls -/

/-- One call of a method of the `Store` interface, with its arguments. -/
inductive Call where
  | DeleteKey (key : String)
  | GetString (key : String)
  | GetInt64 (key : String)
  | Set (key : String) (value : Value)
  | SetHash (key : String) (hash : String) (value : Value)
  | DeleteHash (key : String) (hash : String)
  | GetHashString (key : String) (hash : String)
  | GetAllHashValues (key : String)
  | GetAllHashKeys (key : String)
  | SetExpiry (key : String) (seconds : Int)
  | Increment (key : String)
  | Decrement (key : String)
  | SetAdd (key : String) (value : Value)
  | GetSetStringMembers (key : String)
  | SetRemove (key : String) (value : Value)
  | SetIsMember (key : String) (value : Value)
  | PushItemToList (key : String) (value : Value) (atEnd : Bool)
  | PopItemFromList (key : String) (dataType : Int) (atEnd : Bool)
  | ItemsFromList (key : String) (dataType : Int) (start stop : Int)
  | RemoveItemFromList (key : String) (count : Int) (value : Value)
  | LengthOfList (key : String)
  | ClearDataStore
  deriving DecidableEq, Repr

/-- The store after the call. -/
def Call.after (r : Redis σ) : Call → Redis σ
  | .DeleteKey key => (r.DeleteKey key).2
  | .GetString key => (r.GetString key).2
  | .GetInt64 key => (r.GetInt64 key).2
  | .Set key value => (r.Set key value).2
  | .SetHash key hash value => (r.SetHash key hash value).2
  | .DeleteHash key hash => (r.DeleteHash key hash).2
  | .GetHashString key hash => (r.GetHashString key hash).2
  | .GetAllHashValues key => (r.GetAllHashValues key).2
  | .GetAllHashKeys key => (r.GetAllHashKeys key).2
  | .SetExpiry key seconds => (r.SetExpiry key seconds).2
  | .Increment key => (r.Increment key).2
  | .Decrement key => (r.Decrement key).2
  | .SetAdd key value => (r.SetAdd key value).2
  | .GetSetStringMembers key => (r.GetSetStringMembers key).2
  | .SetRemove key value => (r.SetRemove key value).2
  | .SetIsMember key value => (r.SetIsMember key value).2
  | .PushItemToList key value atEnd => (r.PushItemToList key value atEnd).2
  | .PopItemFromList key dataType atEnd => (r.PopItemFromList key dataType atEnd).2
  | .ItemsFromList key dataType start stop => (r.ItemsFromList key dataType start stop).2
  | .RemoveItemFromList key count value => (r.RemoveItemFromList key count value).2
  | .LengthOfList key => (r.LengthOfList key).2
  | .ClearDataStore => r.ClearDataStore

/-- The `error` result of the call; `ClearDataStore` has none. -/
def Call.error (r : Redis σ) : Call → Option GoError
  | .DeleteKey key => (r.DeleteKey key).1
  | .GetString key => (r.GetString key).1.2
  | .GetInt64 key => (r.GetInt64 key).1.2
  | .Set key value => (r.Set key value).1
  | .SetHash key hash value => (r.SetHash key hash value).1
  | .DeleteHash key hash => (r.DeleteHash key hash).1
  | .GetHashString key hash => (r.GetHashString key hash).1.2
  | .GetAllHashValues key => (r.GetAllHashValues key).1.2
  | .GetAllHashKeys key => (r.GetAllHashKeys key).1.2
  | .SetExpiry key seconds => (r.SetExpiry key seconds).1
  | .Increment key => (r.Increment key).1
  | .Decrement key => (r.Decrement key).1
  | .SetAdd key value => (r.SetAdd key value).1
  | .GetSetStringMembers key => (r.GetSetStringMembers key).1.2
  | .SetRemove key value => (r.SetRemove key value).1
  | .SetIsMember key value => (r.SetIsMember key value).1.2
  | .PushItemToList key value atEnd => (r.PushItemToList key value atEnd).1
  | .PopItemFromList key dataType atEnd => (r.PopItemFromList key dataType atEnd).1.2
  | .ItemsFromList key dataType start stop => (r.ItemsFromList key dataType start stop).1.2
  | .RemoveItemFromList key count value => (r.RemoveItemFromList key count value).1
  | .LengthOfList key => (r.LengthOfList key).1.2
  | .ClearDataStore => none

/-- The exchanges the call added to the trace of the pool. -/
def Call.issued (r : Redis σ) (c : Call) : List Exchange :=
  (c.after r).redis.trace.drop r.redis.trace.length

/-- Whether the decode tag of the call is one its method decodes: every tag for a method
    without one, the four tags for `PopItemFromList`, string and int for `ItemsFromList`. -/
def Call.tagRecognized : Call → Bool
  | .PopItemFromList _ dataType _ =>
    decide (dataType = DataTypeString ∨ dataType = DataTypeBool ∨ dataType = DataTypeInt ∨
      dataType = DataTypeInt64)
  | .ItemsFromList _ dataType _ _ => decide (dataType = DataTypeString ∨ dataType = DataTypeInt)
  | _ => true

/-! ## store: the remote, a Redis server with string and list keys

The server is not part of the repository; the integration tests of `redisstore_test.go` run
against a live one. The model below follows the documented behaviour of the commands the
string and list methods issue. Hash and set commands and `EXPIRE` are outside it and are
answered with an error reply. -/

/-- What a key holds. -/
inductive Entry where
  | str (s : String)
  | list (xs : List String)
  deriving DecidableEq, Repr

/-- Modelled from the spec: the remote store behind the pooled connection (a Redis server),
    of which the repository holds only the caller. A database maps a key to what it holds, if
    anything. -/
abbrev Server := String → Option Entry

/-- The database with `key` bound to `e` (unbound when `e` is `none`). -/
def Server.put (s : Server) (key : String) (e : Option Entry) : Server :=
  fun k => if k = key then e else s k

/-- A list entry, or no entry when the list has become empty. -/
def listEntry (xs : List String) : Option Entry :=
  if xs = [] then none else some (.list xs)

/-- Modelled from the spec: how redigo writes one command argument on the wire. -/
def writeArg : Value → String
  | .string s => s
  | .bytes b => b
  | .int n => strconv.FormatInt n
  | .int64 n => strconv.FormatInt n
  | .bool b => if b then "1" else "0"
  | .nil => ""

/-- Modelled from the spec: how the server reads a 64-bit integer argument or value
    (`string2ll`): the canonical decimal spelling only, within the range of `int64`. -/
def string2ll (s : List Char) : Option Int :=
  if s = ['0'] then some 0
  else
    let neg := s.head? = some '-'
    let body := if neg then s.tail else s
    match body with
    | [] => none
    | c :: _ =>
      if 49 ≤ c.toNat ∧ c.toNat ≤ 57 then
        match decimalValue body 0 with
        | none => none
        | some v =>
          if neg then (if v > 2 ^ 63 then none else some (-(v : Int)))
          else (if v > 2 ^ 63 - 1 then none else some (v : Int))
      else none

/-- The reply to a command on a key of the wrong kind. -/
def wrongType : Reply :=
  .error "WRONGTYPE Operation against a key holding the wrong kind of value"

/-- The reply to an argument that is not an integer. -/
def notAnInteger : Reply := .error "ERR value is not an integer or out of range"

/-- Modelled from the spec: `INCR` and `DECR`, adding `delta` to the integer a key spells (an
    unbound key counts as 0) and answering with the new value. -/
def Server.incrBy (s : Server) (key : String) (delta : Int) : Reply × Server :=
  match s key with
  | some (.list _) => (wrongType, s)
  | some (.str v) =>
    match string2ll v.data with
    | none => (notAnInteger, s)
    | some n =>
      if n + delta < -(2 : Int) ^ 63 ∨ n + delta > (2 : Int) ^ 63 - 1 then
        (.error "ERR increment or decrement would overflow", s)
      else (.integer (n + delta), s.put key (some (.str (strconv.FormatInt (n + delta)))))
  | none =>
    (.integer delta, s.put key (some (.str (strconv.FormatInt delta))))

/-- Modelled from the spec: `LPUSH` and `RPUSH` of one value, answering with the new length. -/
def Server.push (s : Server) (key : String) (v : String) (atEnd : Bool) : Reply × Server :=
  match s key with
  | some (.str _) => (wrongType, s)
  | some (.list xs) =>
    let ys := if atEnd then xs ++ [v] else v :: xs
    (.integer ys.length, s.put key (some (.list ys)))
  | none => (.integer 1, s.put key (some (.list [v])))

/-- Modelled from the spec: `LPOP` and `RPOP`, answering with the element taken, or nil when
    there is none; a list that becomes empty is unbound. -/
def Server.pop (s : Server) (key : String) (atEnd : Bool) : Reply × Server :=
  match s key with
  | some (.str _) => (wrongType, s)
  | some (.list xs) =>
    if atEnd then
      match xs.getLast? with
      | none => (.nil, s)
      | some x => (.bulk x, s.put key (listEntry xs.dropLast))
    else
      match xs with
      | [] => (.nil, s)
      | x :: rest => (.bulk x, s.put key (listEntry rest))
  | none => (.nil, s)

/-- The elements of `xs` from index `start` to index `stop`, both included, with the
    conventions of `LRANGE` for negative and out-of-range indexes. -/
def lrange (xs : List String) (start stop : Int) : List String :=
  let llen : Int := xs.length
  let start := if start < 0 then llen + start else start
  let stop := if stop < 0 then llen + stop else stop
  let start := if start < 0 then 0 else start
  if start > stop ∨ start ≥ llen then []
  else
    let stop := if stop ≥ llen then llen - 1 else stop
    (xs.drop start.toNat).take (stop - start + 1).toNat

/-- Modelled from the spec: `LRANGE key start stop`. -/
def Server.range (s : Server) (key : String) (start stop : String) : Reply × Server :=
  match string2ll start.data, string2ll stop.data with
  | some a, some b =>
    match s key with
    | some (.str _) => (wrongType, s)
    | some (.list xs) => (.array ((lrange xs a b).map Elem.bulk), s)
    | none => (.array [], s)
  | _, _ => (notAnInteger, s)

/-- Removal of the first `n` occurrences of `v`, returning what is left and how many went. -/
def removeFirst : Nat → String → List String → List String × Nat
  | 0, _, xs => (xs, 0)
  | _, _, [] => ([], 0)
  | n + 1, v, x :: xs =>
    if x = v then ((removeFirst n v xs).1, (removeFirst n v xs).2 + 1)
    else (x :: (removeFirst (n + 1) v xs).1, (removeFirst (n + 1) v xs).2)

/-- Modelled from the spec: `LREM key count value`: all occurrences for count 0, the first
    `count` from the head for a positive count, from the tail for a negative one. -/
def Server.rem (s : Server) (key : String) (count : String) (v : String) : Reply × Server :=
  match string2ll count.data with
  | none => (notAnInteger, s)
  | some n =>
    match s key with
    | some (.str _) => (wrongType, s)
    | none => (.integer 0, s)
    | some (.list xs) =>
      let out : List String × Nat :=
        if n = 0 then removeFirst xs.length v xs
        else if n > 0 then removeFirst n.toNat v xs
        else ((removeFirst n.natAbs v xs.reverse).1.reverse, (removeFirst n.natAbs v xs.reverse).2)
      (.integer out.2, s.put key (listEntry out.1))

/-- Modelled from the spec: the reply of the server to one command and the database after it. -/
def Server.exec (s : Server) (cmd : String) (args : List String) : Reply × Server :=
  if cmd = "DEL" then
    match args with
    | [key] => (.integer (if (s key).isSome then 1 else 0), s.put key none)
    | _ => (.error "ERR wrong number of arguments", s)
  else if cmd = "GET" then
    match args with
    | [key] =>
      match s key with
      | none => (.nil, s)
      | some (.str v) => (.bulk v, s)
      | some (.list _) => (wrongType, s)
    | _ => (.error "ERR wrong number of arguments", s)
  else if cmd = "SET" then
    match args with
    | [key, v] => (.status "OK", s.put key (some (.str v)))
    | _ => (.error "ERR wrong number of arguments", s)
  else if cmd = "INCR" then
    match args with
    | [key] => s.incrBy key 1
    | _ => (.error "ERR wrong number of arguments", s)
  else if cmd = "DECR" then
    match args with
    | [key] => s.incrBy key (-1)
    | _ => (.error "ERR wrong number of arguments", s)
  else if cmd = "LPUSH" then
    match args with
    | [key, v] => s.push key v false
    | _ => (.error "ERR wrong number of arguments", s)
  else if cmd = "RPUSH" then
    match args with
    | [key, v] => s.push key v true
    | _ => (.error "ERR wrong number of arguments", s)
  else if cmd = "LPOP" then
    match args with
    | [key] => s.pop key false
    | _ => (.error "ERR wrong number of arguments", s)
  else if cmd = "RPOP" then
    match args with
    | [key] => s.pop key true
    | _ => (.error "ERR wrong number of arguments", s)
  else if cmd = "LRANGE" then
    match args with
    | [key, start, stop] => s.range key start stop
    | _ => (.error "ERR wrong number of arguments", s)
  else if cmd = "LREM" then
    match args with
    | [key, count, v] => s.rem key count v
    | _ => (.error "ERR wrong number of arguments", s)
  else if cmd = "LLEN" then
    match args with
    | [key] =>
      match s key with
      | none => (.integer 0, s)
      | some (.list xs) => (.integer xs.length, s)
      | some (.str _) => (wrongType, s)
    | _ => (.error "ERR wrong number of arguments", s)
  else if cmd = "FLUSHDB" then (.status "OK", fun _ => none)
  else (.error "ERR unknown command", s)

/-- Modelled from the spec: `conn.Do` of redigo on a connection to the modelled server: the
    arguments are written to the wire, the server answers, and an error reply is also returned
    as the error. -/
def redisDo (s : Server) (cmd : String) (args : List Value) : DoResult × Server :=
  let out := s.exec cmd (args.map writeArg)
  ((out.1, match out.1 with | .error msg => some (.redis msg) | _ => none), out.2)

/-- A pool of connections to the server in state `s`, with nothing handed out yet. -/
def serverPool (s : Server) : Pool Server :=
  { exec := redisDo, remote := s, held := [], opened := 0, trace := [] }

/-- A server with no key. -/
def emptyServer : Server := fun _ => none

/-! ### Runs of calls -/

/-- A pool whose remote is out of reach: every command fails with `e` and no reply. -/
def downPool (e : GoError) : Pool Unit :=
  { exec := fun _ _ _ => ((.nil, some e), ()), remote := (), held := [], opened := 0, trace := [] }

/-- Method `Increment` called `n` times in a row, with the error of each call. -/
def incrementTimes (key : String) : Nat → Redis σ → List (Option GoError) × Redis σ
  | 0, r => ([], r)
  | n + 1, r =>
    ((r.Increment key).1 :: (incrementTimes key n (r.Increment key).2).1,
      (incrementTimes key n (r.Increment key).2).2)

/-- Method `Decrement` called `n` times in a row, with the error of each call. -/
def decrementTimes (key : String) : Nat → Redis σ → List (Option GoError) × Redis σ
  | 0, r => ([], r)
  | n + 1, r =>
    ((r.Decrement key).1 :: (decrementTimes key n (r.Decrement key).2).1,
      (decrementTimes key n (r.Decrement key).2).2)

/-- Method `PushItemToList` called once for each value, in order, with the error of each call. -/
def pushAll (key : String) (atEnd : Bool) : List Value → Redis σ → List (Option GoError) × Redis σ
  | [], r => ([], r)
  | v :: vs, r =>
    ((r.PushItemToList key v atEnd).1 :: (pushAll key atEnd vs (r.PushItemToList key v atEnd).2).1,
      (pushAll key atEnd vs (r.PushItemToList key v atEnd).2).2)

/-- Method `PopItemFromList` called once for each flag, in order, with the result of each call. -/
def popAll (key : String) (dataType : Int) :
    List Bool → Redis σ → List (Iface × Option GoError) × Redis σ
  | [], r => ([], r)
  | b :: bs, r =>
    ((r.PopItemFromList key dataType b).1 ::
        (popAll key dataType bs (r.PopItemFromList key dataType b).2).1,
      (popAll key dataType bs (r.PopItemFromList key dataType b).2).2)

/-- Specification of a run of pops on the items `xs`, listed in push order: a pop at the end
    takes the latest-pushed item that remains, a pop at the front the earliest-pushed one. -/
def expectedPops : List String → List Bool → List String
  | _, [] => []
  | xs, true :: bs =>
    match xs.getLast? with
    | some x => x :: expectedPops xs.dropLast bs
    | none => []
  | xs, false :: bs =>
    match xs with
    | x :: rest => x :: expectedPops rest bs
    | [] => []

end store

/-! ## Theorems: decode tags, error propagation, connections -/

namespace store

variable {σ : Type}

/-- C1: for every key, every flag, every behaviour of the remote and every tag other than the
    four data types, `PopItemFromList` returns a nil value and an error whose message is
    "Invalid data type". -/
theorem PopItemFromList_unrecognized_tag (r : Redis σ) (key : String) (dataType : Int)
    (atEnd : Bool)
    (h : dataType ≠ DataTypeString ∧ dataType ≠ DataTypeBool ∧ dataType ≠ DataTypeInt ∧
      dataType ≠ DataTypeInt64) :
    (r.PopItemFromList key dataType atEnd).1.1 = Iface.nil ∧
      ∃ e, (r.PopItemFromList key dataType atEnd).1.2 = some e ∧ e.Error = "Invalid data type" := by
  obtain ⟨h0, h1, h2, h3⟩ := h
  refine ⟨?_, GoError.new "Invalid data type", ?_, rfl⟩ <;>
    simp [Redis.PopItemFromList, h0, h1, h2, h3]

/-- Witness of C1 at the tag the test uses, against a server that holds a list. -/
theorem PopItemFromList_unrecognized_tag_witness :
    ((23123123 : Int) ≠ DataTypeString ∧ (23123123 : Int) ≠ DataTypeBool ∧
      (23123123 : Int) ≠ DataTypeInt ∧ (23123123 : Int) ≠ DataTypeInt64) ∧
    ((NewRedisStore (serverPool (emptyServer.put "key" (some (.list ["1"]))))).PopItemFromList
        "key" 23123123 true).1.1 = Iface.nil ∧
      ∃ e, ((NewRedisStore (serverPool (emptyServer.put "key" (some (.list ["1"]))))).PopItemFromList
        "key" 23123123 true).1.2 = some e ∧ e.Error = "Invalid data type" :=
  ⟨by decide, PopItemFromList_unrecognized_tag _ "key" 23123123 true (by decide)⟩

/-- C2: `ItemsFromList` decodes the reply of its `LRANGE` with `redis.Strings` for
    `DataTypeString` and with `redis.Ints` for `DataTypeInt`; for every other tag it returns a
    nil value and the error "Invalid data type". -/
theorem ItemsFromList_dispatch (r : Redis σ) (key : String) (dataType start end_ : Int) :
    (dataType = DataTypeString →
      (r.ItemsFromList key dataType start end_).1 =
        (Iface.strings
          (redisStrings (r.redis.exec r.redis.remote "LRANGE" [.string key, .int start, .int end_]).1.1
            (r.redis.exec r.redis.remote "LRANGE" [.string key, .int start, .int end_]).1.2).1,
         (redisStrings (r.redis.exec r.redis.remote "LRANGE" [.string key, .int start, .int end_]).1.1
            (r.redis.exec r.redis.remote "LRANGE" [.string key, .int start, .int end_]).1.2).2)) ∧
    (dataType = DataTypeInt →
      (r.ItemsFromList key dataType start end_).1 =
        (Iface.ints
          (redisInts (r.redis.exec r.redis.remote "LRANGE" [.string key, .int start, .int end_]).1.1
            (r.redis.exec r.redis.remote "LRANGE" [.string key, .int start, .int end_]).1.2).1,
         (redisInts (r.redis.exec r.redis.remote "LRANGE" [.string key, .int start, .int end_]).1.1
            (r.redis.exec r.redis.remote "LRANGE" [.string key, .int start, .int end_]).1.2).2)) ∧
    (dataType ≠ DataTypeString → dataType ≠ DataTypeInt →
      (r.ItemsFromList key dataType start end_).1 = (Iface.nil, some (GoError.new "Invalid data type")) ∧
        (GoError.new "Invalid data type").Error = "Invalid data type") := by
  refine ⟨?_, ?_, ?_⟩
  · intro h
    simp [Redis.ItemsFromList, h, Pool.Get, Pool.Do]
  · intro h
    simp [Redis.ItemsFromList, h, Pool.Get, Pool.Do, DataTypeInt, DataTypeString]
  · intro h0 h2
    simp [Redis.ItemsFromList, h0, h2, GoError.Error]

/-- Witness of C2 on a list of three numbers: as strings, as integers, and the failure for the
    tags of bool and int64 and for the tag the test uses. -/
theorem ItemsFromList_dispatch_witness :
    ((NewRedisStore (serverPool (emptyServer.put "key" (some (.list ["1", "2", "4"]))))).ItemsFromList
        "key" DataTypeString 0 3).1 = (Iface.strings ["1", "2", "4"], none) ∧
    ((NewRedisStore (serverPool (emptyServer.put "key" (some (.list ["1", "2", "4"]))))).ItemsFromList
        "key" DataTypeInt 0 3).1 = (Iface.ints [1, 2, 4], none) ∧
    ((NewRedisStore (serverPool (emptyServer.put "key" (some (.list ["1", "2", "4"]))))).ItemsFromList
        "key" DataTypeBool 0 3).1 = (Iface.nil, some (GoError.new "Invalid data type")) ∧
    ((NewRedisStore (serverPool (emptyServer.put "key" (some (.list ["1", "2", "4"]))))).ItemsFromList
        "key" DataTypeInt64 0 3).1 = (Iface.nil, some (GoError.new "Invalid data type")) ∧
    ((NewRedisStore (serverPool (emptyServer.put "key" (some (.list ["1", "2", "4"]))))).ItemsFromList
        "key" 23123123 0 3).1 = (Iface.nil, some (GoError.new "Invalid data type")) := by
  refine ⟨?_, ?_, ?_, ?_, ?_⟩
  · rw [(ItemsFromList_dispatch _ "key" DataTypeString 0 3).1 rfl]; decide
  · rw [(ItemsFromList_dispatch _ "key" DataTypeInt 0 3).2.1 rfl]; decide
  · exact ((ItemsFromList_dispatch _ "key" DataTypeBool 0 3).2.2 (by decide) (by decide)).1
  · exact ((ItemsFromList_dispatch _ "key" DataTypeInt64 0 3).2.2 (by decide) (by decide)).1
  · exact ((ItemsFromList_dispatch _ "key" 23123123 0 3).2.2 (by decide) (by decide)).1

/-- C3 as stated fails: with the remote out of reach, so that the pop command fails with
    "connection refused", `PopItemFromList` with an unrecognized tag returns the error
    "Invalid data type" and not the error of the remote call. -/
theorem remote_error_not_propagated :
    Call.PopItemFromList "key" 23123123 true ≠ Call.ClearDataStore ∧
    ((Call.PopItemFromList "key" 23123123 true).issued
        (NewRedisStore (downPool (GoError.new "connection refused")))).map Exchange.err =
      [some (GoError.new "connection refused")] ∧
    (Call.PopItemFromList "key" 23123123 true).error
        (NewRedisStore (downPool (GoError.new "connection refused"))) =
      some (GoError.new "Invalid data type") ∧
    (Call.PopItemFromList "key" 23123123 true).error
        (NewRedisStore (downPool (GoError.new "connection refused"))) ≠
      some (GoError.new "connection refused") := by
  decide

/-- C3, amended: for every call other than `ClearDataStore` whose decode tag is recognized
    by its method, if the one command it issues fails with error `e`, the call returns `e`. -/
theorem remote_error_propagated (r : Redis σ) (c : Call) (e : GoError)
    (hc : c ≠ Call.ClearDataStore) (ht : c.tagRecognized = true)
    (he : (c.issued r).map Exchange.err = [some e]) :
    c.error r = some e := by
  cases c <;>
    simp_all [Call.error, Call.issued, Call.after, Call.tagRecognized, Redis.DeleteKey,
      Redis.GetString, Redis.GetInt64, Redis.Set, Redis.SetHash, Redis.DeleteHash,
      Redis.GetHashString, Redis.GetAllHashValues, Redis.GetAllHashKeys, Redis.SetExpiry,
      Redis.Increment, Redis.Decrement, Redis.SetAdd, Redis.GetSetStringMembers,
      Redis.SetRemove, Redis.SetIsMember, Redis.PushItemToList, Redis.PopItemFromList,
      Redis.ItemsFromList, Redis.RemoveItemFromList, Redis.LengthOfList, Pool.Get, Pool.Do,
      Pool.Close, redisString, redisInt64, redisInt, redisBool, redisStrings, redisInts,
      redisValues]
  · rcases ht with h | h | h | h <;>
      simp [h, DataTypeString, DataTypeBool, DataTypeInt, DataTypeInt64]
  · rcases ht with h | h <;> simp [h, DataTypeString, DataTypeInt]

/-- Witness of the amended C3: a pop with the tag of int, against a remote out of reach. -/
theorem remote_error_propagated_witness :
    (Call.PopItemFromList "key" DataTypeInt true ≠ Call.ClearDataStore ∧
      (Call.PopItemFromList "key" DataTypeInt true).tagRecognized = true ∧
      ((Call.PopItemFromList "key" DataTypeInt true).issued
          (NewRedisStore (downPool (GoError.new "connection refused")))).map Exchange.err =
        [some (GoError.new "connection refused")]) ∧
    (Call.PopItemFromList "key" DataTypeInt true).error
        (NewRedisStore (downPool (GoError.new "connection refused"))) =
      some (GoError.new "connection refused") :=
  ⟨by decide, remote_error_propagated _ _ _ (by decide) (by decide) (by decide)⟩

/-- C4: every call, whatever the remote does, takes exactly one connection from the pool,
    issues exactly one command, on that connection, and has given the connection back when
    it returns: the connections held are the same after the call as before. -/
theorem one_connection_one_command (r : Redis σ) (c : Call) :
    (c.after r).redis.opened = r.redis.opened + 1 ∧
    (∃ x : Exchange, (c.after r).redis.trace = r.redis.trace ++ [x] ∧ x.conn = r.redis.opened) ∧
    (c.issued r).length = 1 ∧
    (c.after r).redis.held = r.redis.held ∧
    (c.after r).redis.held.length = r.redis.held.length := by
  cases c <;>
    simp [Call.issued, Call.after, Redis.DeleteKey,
      Redis.GetString, Redis.GetInt64, Redis.Set, Redis.SetHash, Redis.DeleteHash,
      Redis.GetHashString, Redis.GetAllHashValues, Redis.GetAllHashKeys, Redis.SetExpiry,
      Redis.Increment, Redis.Decrement, Redis.SetAdd, Redis.GetSetStringMembers,
      Redis.SetRemove, Redis.SetIsMember, Redis.PushItemToList, Redis.PopItemFromList,
      Redis.ItemsFromList, Redis.RemoveItemFromList, Redis.LengthOfList, Redis.ClearDataStore,
      Pool.Get, Pool.Do, Pool.Close]

end store

/-! ## Theorems: decimal numerals -/

theorem decimalValue_ge : ∀ (cs : List Char) (n v : Nat), decimalValue cs n = some v → n ≤ v := by
  intro cs
  induction cs with
  | nil => intro n v h; simp [decimalValue] at h; omega
  | cons c cs ih =>
    intro n v h
    unfold decimalValue at h
    split at h
    · have := ih _ _ h
      omega
    · cases h

theorem decimalValue_append (xs ys : List Char) : ∀ n : Nat,
    decimalValue (xs ++ ys) n = (decimalValue xs n).bind (decimalValue ys) := by
  induction xs with
  | nil => intro n; simp [decimalValue]
  | cons c cs ih =>
    intro n
    simp only [List.cons_append, decimalValue]
    split
    · exact ih _
    · rfl

namespace strconv

theorem parseUintLoop_ok : ∀ (cs : List Char) (n v : Nat),
    parseUintLoop cs n = .ok v → decimalValue cs n = some v := by
  intro cs
  induction cs with
  | nil => intro n v h; simpa [parseUintLoop, decimalValue] using h
  | cons c cs ih =>
    intro n v h
    unfold parseUintLoop at h
    dsimp only at h
    unfold decimalValue
    split at h
    · rename_i hd
      simp only [hd, and_self, if_true]
      split at h
      · cases h
      · split at h
        · cases h
        · exact ih _ _ h
    · cases h

theorem parseUintLoop_le : ∀ (cs : List Char) (n v : Nat),
    parseUintLoop cs n = .ok v → n ≤ maxUint64 → v ≤ maxUint64 := by
  intro cs
  induction cs with
  | nil => intro n v h hn; simp [parseUintLoop] at h; omega
  | cons c cs ih =>
    intro n v h hn
    unfold parseUintLoop at h
    dsimp only at h
    split at h
    · split at h
      · cases h
      · split at h
        · cases h
        · exact ih _ _ h (by omega)
    · cases h

theorem parseUintLoop_of_decimalValue : ∀ (cs : List Char) (n v : Nat),
    decimalValue cs n = some v → v ≤ maxUint64 → parseUintLoop cs n = .ok v := by
  intro cs
  induction cs with
  | nil => intro n v h _; simpa [parseUintLoop, decimalValue] using h
  | cons c cs ih =>
    intro n v h hv
    unfold decimalValue at h
    unfold parseUintLoop
    split at h
    · rename_i hd
      have hge := decimalValue_ge _ _ _ h
      have h1 : ¬ (n ≥ maxUint64 / 10 + 1) := by
        simp only [maxUint64] at hv ⊢
        omega
      have h2 : ¬ (n * 10 + (c.toNat - 48) > maxUint64) := by omega
      simp only [hd, and_self, if_true, h1, h2, if_false]
      exact ih _ _ h hv
    · cases h

theorem parseUintLoop_syntax : ∀ (cs : List Char) (n : Nat),
    parseUintLoop cs n = .error .ErrSyntax → decimalValue cs n = none := by
  intro cs
  induction cs with
  | nil => intro n h; simp [parseUintLoop] at h
  | cons c cs ih =>
    intro n h
    unfold parseUintLoop at h
    dsimp only at h
    unfold decimalValue
    split at h
    · rename_i hd
      simp only [hd, and_self, if_true]
      split at h
      · cases h
      · split at h
        · cases h
        · exact ih _ h
    · rename_i hd
      simp [hd]

theorem parseUintLoop_range : ∀ (cs : List Char) (n v : Nat),
    parseUintLoop cs n = .error .ErrRange → decimalValue cs n = some v → maxUint64 < v := by
  intro cs
  induction cs with
  | nil => intro n v h; simp [parseUintLoop] at h
  | cons c cs ih =>
    intro n v h hv
    unfold parseUintLoop at h
    dsimp only at h
    unfold decimalValue at hv
    split at h
    · rename_i hd
      simp only [hd, and_self, if_true] at hv
      have hge := decimalValue_ge _ _ _ hv
      split at h
      · rename_i hc
        simp only [maxUint64] at hc ⊢
        omega
      · split at h
        · omega
        · exact ih _ _ h hv
    · cases h

end strconv

namespace configuration

theorem unsignedPart_eq (cs : List Char) :
    (if cs.head? = some '+' ∨ cs.head? = some '-' then cs.tail else cs) = unsignedPart cs := by
  cases cs with
  | nil => simp [unsignedPart]
  | cons c cs =>
    by_cases h1 : c = '+'
    · subst h1; simp [unsignedPart]
    · by_cases h2 : c = '-'
      · subst h2; simp [unsignedPart]
      · simp only [List.head?_cons, Option.some.injEq, h1, h2, or_self, if_false]
        unfold unsignedPart
        split <;> simp_all

/-- Go `strconv.ParseInt` in base 10 accepts exactly the valid decimal integers, with their
    value, and reports an error on every other text. -/
theorem ParseIntNamed_validInt (fn s : String) :
    (∀ v, validInt s = some v → strconv.ParseIntNamed fn s = (v, none)) ∧
    (validInt s = none → (strconv.ParseIntNamed fn s).2 ≠ none) := by
  unfold validInt strconv.ParseIntNamed
  rw [unsignedPart_eq]
  by_cases he : s.data = []
  · simp [he, unsignedPart]
  · simp only [he, if_false]
    by_cases hb : unsignedPart s.data = []
    · simp [hb, strconv.ParseUint]
    · simp only [hb, if_false, strconv.ParseUint]
      cases hp : strconv.parseUintLoop (unsignedPart s.data) 0 with
      | ok n =>
        have hd := strconv.parseUintLoop_ok _ _ _ hp
        have hle := strconv.parseUintLoop_le _ _ _ hp (by simp [strconv.maxUint64])
        simp only [strconv.maxUint64] at hle
        simp only [hd]
        by_cases hneg : s.data.head? = some '-'
        · simp only [hneg, decide_True, if_true]
          constructor
          · intro v hv
            split at hv
            · rename_i hr
              have hv' : -(n : Int) = v := by simpa using hv
              have h1 : n ≤ 9223372036854775808 := by omega
              simp [h1, hv']
            · cases hv
          · intro hv
            split at hv
            · cases hv
            · rename_i hr
              have h1 : 9223372036854775808 < n := by omega
              simp [h1]
        · simp only [hneg, decide_False, if_false]
          constructor
          · intro v hv
            split at hv
            · rename_i hr
              have hv' : (n : Int) = v := by simpa using hv
              have h1 : n < 9223372036854775808 := by omega
              simp [h1, hv']
            · cases hv
          · intro hv
            split at hv
            · cases hv
            · rename_i hr
              have h1 : 9223372036854775808 ≤ n := by omega
              simp [h1]
      | error k =>
        cases k with
        | ErrSyntax =>
          have hd := strconv.parseUintLoop_syntax _ _ hp
          simp [hd]
        | ErrRange =>
          constructor
          · intro v hv
            exfalso
            cases hdv : decimalValue (unsignedPart s.data) 0 with
            | none => simp [hdv] at hv
            | some m =>
              have hm := strconv.parseUintLoop_range _ _ _ hp hdv
              simp only [strconv.maxUint64] at hm
              simp only [hdv] at hv
              by_cases hneg : s.data.head? = some '-'
              · simp only [hneg, if_true] at hv
                split at hv
                · omega
                · cases hv
              · simp only [hneg, if_false] at hv
                split at hv
                · omega
                · cases hv
          · intro _
            by_cases hneg : s.data.head? = some '-' <;> simp [hneg, strconv.maxUint64]

theorem toInt64_of_range (v : Int) (h : -(2 : Int) ^ 63 ≤ v ∧ v < (2 : Int) ^ 63) :
    strconv.toInt64 v = v := by
  unfold strconv.toInt64
  omega

theorem validInt_range (s : String) (v : Int) (h : validInt s = some v) :
    -(2 : Int) ^ 63 ≤ v ∧ v < (2 : Int) ^ 63 := by
  unfold validInt at h
  by_cases hb : unsignedPart s.data = []
  · simp [hb] at h
  · simp only [hb, if_false] at h
    cases hd : decimalValue (unsignedPart s.data) 0 with
    | none => simp [hd] at h
    | some n =>
      simp only [hd] at h
      by_cases hneg : s.data.head? = some '-'
      · simp only [hneg, if_true] at h
        split at h
        · rename_i hr
          cases h
          exact hr
        · cases h
      · simp only [hneg, if_false] at h
        split at h
        · rename_i hr
          cases h
          exact hr
        · cases h

theorem GetInt_eq_validInt (env : Environ) (key : String) :
    GetInt env key = (validInt (env key)).getD 0 := by
  unfold GetInt GetString strconv.Atoi
  have hspec := ParseIntNamed_validInt "Atoi" (env key)
  cases hv : validInt (env key) with
  | some v => simp [hspec.1 v hv]
  | none =>
    have hne := hspec.2 hv
    dsimp only
    split
    · rfl
    · rename_i heq
      rw [heq] at hne
      exact absurd rfl hne

/-- C5: `GetInt` returns the value of the text of the variable when that text is a valid
    decimal integer and 0 otherwise; `GetBool` returns the boolean the text spells when it is a
    valid boolean and false otherwise; `GetDuration` is the duration whose integer value is
    `GetInt`. Each of the three returns a plain value: there is no error result. -/
theorem getters_fall_back (env : Environ) (key : String) :
    GetInt env key = (validInt (env key)).getD 0 ∧
    GetBool env key = (validBool (env key)).getD false ∧
    GetDuration env key = GetInt env key := by
  refine ⟨GetInt_eq_validInt env key, ?_, ?_⟩
  · unfold GetBool GetString strconv.ParseBool validBool
    simp only [List.mem_cons, List.mem_singleton, List.not_mem_nil, or_false]
    split_ifs <;> simp_all
  · unfold GetDuration
    dsimp only
    rw [GetInt_eq_validInt]
    cases hv : validInt (env key) with
    | some v => exact toInt64_of_range v (validInt_range _ _ hv)
    | none => simp [strconv.toInt64]

end configuration

/-! ## Theorems: writing an integer and reading it back -/

namespace strconv

theorem digitChar_toNat (d : Nat) (h : d < 10) : (digitChar d).toNat = 48 + d := by
  unfold digitChar
  interval_cases d <;> rfl

theorem formatBits_acc : ∀ (fuel u : Nat) (acc : List Char),
    formatBits fuel u acc = formatBits fuel u [] ++ acc := by
  intro fuel
  induction fuel with
  | zero => intro u acc; simp [formatBits]
  | succ k ih =>
    intro u acc
    unfold formatBits
    split
    · rw [ih (u / 10) (digitChar (u % 10) :: acc), ih (u / 10) [digitChar (u % 10)]]
      simp
    · simp

theorem decimalValue_formatBits : ∀ (fuel u : Nat), u < 10 ^ fuel →
    decimalValue (formatBits fuel u []) 0 = some u := by
  intro fuel
  induction fuel with
  | zero =>
    intro u h
    have : u = 0 := by simpa using h
    simp [formatBits, decimalValue, this]
  | succ k ih =>
    intro u h
    unfold formatBits
    split
    · have hq : u / 10 < 10 ^ k := by
        rw [pow_succ] at h
        omega
      have hd := digitChar_toNat (u % 10) (by omega)
      rw [formatBits_acc, decimalValue_append, ih _ hq]
      simp only [Option.some_bind, decimalValue, hd]
      have h1 : 48 ≤ 48 + u % 10 ∧ 48 + u % 10 ≤ 57 := by omega
      simp only [h1, and_self, if_true, Option.some.injEq]
      omega
    · have hd := digitChar_toNat u (by omega)
      simp only [decimalValue, hd]
      have h1 : 48 ≤ 48 + u ∧ 48 + u ≤ 57 := by omega
      simp only [h1, and_self, if_true, Option.some.injEq]
      omega

theorem formatBits_head : ∀ (fuel u : Nat) (acc : List Char), 1 ≤ u → u < 10 ^ fuel →
    ∃ c cs, formatBits fuel u acc = c :: cs ∧ 49 ≤ c.toNat ∧ c.toNat ≤ 57 := by
  intro fuel
  induction fuel with
  | zero => intro u acc h1 h; simp at h; omega
  | succ k ih =>
    intro u acc h1 h
    unfold formatBits
    split
    · have hq : u / 10 < 10 ^ k := by
        rw [pow_succ] at h
        omega
      exact ih _ _ (by omega) hq
    · have hd := digitChar_toNat u (by omega)
      exact ⟨digitChar u, acc, rfl, by omega, by omega⟩

/-- Shape of the decimal spelling of a positive `int64`. -/
theorem FormatInt_pos (v : Int) (h0 : 0 < v) (h : v < (2 : Int) ^ 63) :
    ∃ c cs, (FormatInt v).data = c :: cs ∧ 49 ≤ c.toNat ∧ c.toNat ≤ 57 ∧
      decimalValue (c :: cs) 0 = some v.natAbs := by
  have hb : v.natAbs < 10 ^ 20 := by omega
  obtain ⟨c, cs, hc, h1, h2⟩ := formatBits_head 20 v.natAbs [] (by omega) hb
  refine ⟨c, cs, ?_, h1, h2, ?_⟩
  · unfold FormatInt
    rw [if_neg (by omega)]
    exact hc
  · rw [← hc]
    exact decimalValue_formatBits 20 _ hb

/-- Shape of the decimal spelling of a negative `int64`. -/
theorem FormatInt_neg (v : Int) (h0 : v < 0) (h : -(2 : Int) ^ 63 ≤ v) :
    ∃ c cs, (FormatInt v).data = '-' :: c :: cs ∧ 49 ≤ c.toNat ∧ c.toNat ≤ 57 ∧
      decimalValue (c :: cs) 0 = some v.natAbs := by
  have hb : v.natAbs < 10 ^ 20 := by omega
  obtain ⟨c, cs, hc, h1, h2⟩ := formatBits_head 20 v.natAbs [] (by omega) hb
  refine ⟨c, cs, ?_, h1, h2, ?_⟩
  · unfold FormatInt
    rw [if_pos h0]
    simp [hc]
  · rw [← hc]
    exact decimalValue_formatBits 20 _ hb

theorem FormatInt_zero : (FormatInt 0).data = ['0'] := by decide

end strconv

theorem validInt_FormatInt (v : Int) (h : -(2 : Int) ^ 63 ≤ v ∧ v < (2 : Int) ^ 63) :
    configuration.validInt (strconv.FormatInt v) = some v := by
  unfold configuration.validInt
  rcases lt_trichotomy v 0 with hv | hv | hv
  · obtain ⟨c, cs, hc, h1, h2, hd⟩ := strconv.FormatInt_neg v hv h.1
    have hr : -(2 : Int) ^ 63 ≤ -((v.natAbs : Nat) : Int) ∧ -((v.natAbs : Nat) : Int) < (2 : Int) ^ 63 := by
      omega
    simp only [hc, configuration.unsignedPart, hd, List.head?_cons, if_true, hr, and_self]
    simp only [reduceCtorEq, if_false, Option.some.injEq]
    omega
  · subst hv
    decide
  · obtain ⟨c, cs, hc, h1, h2, hd⟩ := strconv.FormatInt_pos v hv h.2
    have hplus : c ≠ '+' := by
      intro hx
      rw [hx] at h1
      revert h1
      decide
    have hminus : c ≠ '-' := by
      intro hx
      rw [hx] at h1
      revert h1
      decide
    have hu : configuration.unsignedPart (c :: cs) = c :: cs := by
      rw [← configuration.unsignedPart_eq]
      simp [hplus, hminus]
    have hr : -(2 : Int) ^ 63 ≤ ((v.natAbs : Nat) : Int) ∧ ((v.natAbs : Nat) : Int) < (2 : Int) ^ 63 := by
      omega
    simp only [hc, hu, hd, List.head?_cons, Option.some.injEq, hminus, if_false, hr, and_self,
      if_true, reduceCtorEq]
    omega

/-- Reading back what `FormatInt` wrote: `strconv.ParseInt` returns the `int64` written. -/
theorem ParseInt_FormatInt (v : Int) (h : -(2 : Int) ^ 63 ≤ v ∧ v < (2 : Int) ^ 63) :
    strconv.ParseInt (strconv.FormatInt v) = (v, none) :=
  (configuration.ParseIntNamed_validInt "ParseInt" _).1 v (validInt_FormatInt v h)

theorem Atoi_FormatInt (v : Int) (h : -(2 : Int) ^ 63 ≤ v ∧ v < (2 : Int) ^ 63) :
    strconv.Atoi (strconv.FormatInt v) = (v, none) :=
  (configuration.ParseIntNamed_validInt "Atoi" _).1 v (validInt_FormatInt v h)

/-- The server reads back the integer the client, or the server itself, wrote. -/
theorem string2ll_FormatInt (v : Int) (h : -(2 : Int) ^ 63 ≤ v ∧ v < (2 : Int) ^ 63) :
    store.string2ll (strconv.FormatInt v).data = some v := by
  unfold store.string2ll
  rcases lt_trichotomy v 0 with hv | hv | hv
  · obtain ⟨c, cs, hc, h1, h2, hd⟩ := strconv.FormatInt_neg v hv h.1
    have hle : ¬ (v.natAbs > 2 ^ 63) := by omega
    have hcr : 49 ≤ c.toNat ∧ c.toNat ≤ 57 := ⟨h1, h2⟩
    simp only [hc, List.head?_cons, List.tail_cons, if_true, hd, hcr, and_self, hle, if_false]
    simp only [List.cons.injEq, reduceCtorEq, and_false, false_and, if_false, Option.some.injEq]
    omega
  · subst hv
    decide
  · obtain ⟨c, cs, hc, h1, h2, hd⟩ := strconv.FormatInt_pos v hv h.2
    have hminus : c ≠ '-' := by
      intro hx
      rw [hx] at h1
      revert h1
      decide
    have hzero : c ≠ '0' := by
      intro hx
      rw [hx] at h1
      revert h1
      decide
    have hle : ¬ (v.natAbs > 2 ^ 63 - 1) := by omega
    have hcr : 49 ≤ c.toNat ∧ c.toNat ≤ 57 := ⟨h1, h2⟩
    simp only [hc, List.head?_cons, Option.some.injEq, hminus, if_false, List.cons.injEq, hzero,
      false_and, hd, hcr, and_self, if_true, hle]
    omega

/-! ## Theorems: the client against the modelled server -/

namespace store

theorem put_same (s : Server) (key : String) (e : Option Entry) : (s.put key e) key = e := by
  simp [Server.put]

theorem Set_server (r : Redis Server) (hr : r.redis.exec = redisDo) (key : String) (v : Value) :
    (r.Set key v).1 = none ∧ (r.Set key v).2.redis.exec = redisDo ∧
      (r.Set key v).2.redis.remote = r.redis.remote.put key (some (.str (writeArg v))) := by
  simp [Redis.Set, Pool.Get, Pool.Do, Pool.Close, hr, redisDo, Server.exec, writeArg]

theorem GetString_server (r : Redis Server) (hr : r.redis.exec = redisDo) (key : String) :
    (r.GetString key).1 =
      (match r.redis.remote key with
        | none => ("", some GoError.ErrNil)
        | some (.str v) => (v, none)
        | some (.list _) =>
          ("", some (.redis "WRONGTYPE Operation against a key holding the wrong kind of value"))) := by
  simp only [Redis.GetString, Pool.Get, Pool.Do, Pool.Close, hr, redisDo, Server.exec]
  simp only [String.reduceEq, if_false, if_true, List.map_cons, List.map_nil, writeArg]
  cases hk : r.redis.remote key with
  | none => simp [redisString]
  | some e => cases e <;> simp [redisString, wrongType]

theorem GetInt64_server (r : Redis Server) (hr : r.redis.exec = redisDo) (key : String) :
    (r.GetInt64 key).1 =
      (match r.redis.remote key with
        | none => (0, some GoError.ErrNil)
        | some (.str v) => strconv.ParseInt v
        | some (.list _) =>
          (0, some (.redis "WRONGTYPE Operation against a key holding the wrong kind of value"))) := by
  simp only [Redis.GetInt64, Pool.Get, Pool.Do, Pool.Close, hr, redisDo, Server.exec]
  simp only [String.reduceEq, if_false, if_true, List.map_cons, List.map_nil, writeArg]
  cases hk : r.redis.remote key with
  | none => simp [redisInt64]
  | some e => cases e <;> simp [redisInt64, wrongType]

theorem DeleteKey_server (r : Redis Server) (hr : r.redis.exec = redisDo) (key : String) :
    (r.DeleteKey key).1 = none ∧ (r.DeleteKey key).2.redis.exec = redisDo ∧
      (r.DeleteKey key).2.redis.remote = r.redis.remote.put key none := by
  simp [Redis.DeleteKey, Pool.Get, Pool.Do, Pool.Close, hr, redisDo, Server.exec, writeArg]

theorem Increment_server (r : Redis Server) (hr : r.redis.exec = redisDo) (key : String) :
    (r.Increment key).2.redis.exec = redisDo ∧
      (r.Increment key).2.redis.remote = (r.redis.remote.incrBy key 1).2 ∧
      ((r.Increment key).1 = none ↔ ∀ msg, (r.redis.remote.incrBy key 1).1 ≠ Reply.error msg) := by
  simp only [Redis.Increment, Pool.Get, Pool.Do, Pool.Close, hr, redisDo, Server.exec]
  simp only [String.reduceEq, if_false, if_true, List.map_cons, List.map_nil, writeArg]
  refine ⟨trivial, trivial, ?_⟩
  generalize (r.redis.remote.incrBy key 1).1 = rep
  cases rep <;> simp

theorem Decrement_server (r : Redis Server) (hr : r.redis.exec = redisDo) (key : String) :
    (r.Decrement key).2.redis.exec = redisDo ∧
      (r.Decrement key).2.redis.remote = (r.redis.remote.incrBy key (-1)).2 ∧
      ((r.Decrement key).1 = none ↔ ∀ msg, (r.redis.remote.incrBy key (-1)).1 ≠ Reply.error msg) := by
  simp only [Redis.Decrement, Pool.Get, Pool.Do, Pool.Close, hr, redisDo, Server.exec]
  simp only [String.reduceEq, if_false, if_true, List.map_cons, List.map_nil, writeArg]
  refine ⟨trivial, trivial, ?_⟩
  generalize (r.redis.remote.incrBy key (-1)).1 = rep
  cases rep <;> simp

/-- C6: on any server, `Set(key, v)` of a string followed by `GetString(key)` returns `v`,
    and `Set(key, n)` of an `int64` followed by `GetInt64(key)` returns `n`, each with no
    error; `GetString` and `GetInt64` on a key that holds nothing return an error. -/
theorem set_then_get (s : Server) (key : String) (v : String) (n : Int)
    (hn : -(2 : Int) ^ 63 ≤ n ∧ n < (2 : Int) ^ 63) (unset : String) (hu : s unset = none) :
    ((NewRedisStore (serverPool s)).Set key (.string v)).1 = none ∧
    (((NewRedisStore (serverPool s)).Set key (.string v)).2.GetString key).1 = (v, none) ∧
    ((NewRedisStore (serverPool s)).Set key (.int64 n)).1 = none ∧
    (((NewRedisStore (serverPool s)).Set key (.int64 n)).2.GetInt64 key).1 = (n, none) ∧
    ((NewRedisStore (serverPool s)).GetString unset).1.2 ≠ none ∧
    ((NewRedisStore (serverPool s)).GetInt64 unset).1.2 ≠ none := by
  have h0 : (NewRedisStore (serverPool s)).redis.exec = redisDo := rfl
  obtain ⟨a1, a2, a3⟩ := Set_server _ h0 key (.string v)
  obtain ⟨b1, b2, b3⟩ := Set_server _ h0 key (.int64 n)
  refine ⟨a1, ?_, b1, ?_, ?_, ?_⟩
  · rw [GetString_server _ a2, a3, put_same]
    rfl
  · rw [GetInt64_server _ b2, b3, put_same]
    exact ParseInt_FormatInt n hn
  · rw [GetString_server _ h0]
    have : (NewRedisStore (serverPool s)).redis.remote unset = none := hu
    rw [this]
    simp
  · rw [GetInt64_server _ h0]
    have : (NewRedisStore (serverPool s)).redis.remote unset = none := hu
    rw [this]
    simp

/-- Witness of C6 with the values of the tests: "val" and 123. -/
theorem set_then_get_witness :
    ((-(2 : Int) ^ 63 ≤ 123 ∧ (123 : Int) < (2 : Int) ^ 63) ∧ emptyServer "invalid_key" = none) ∧
    ((NewRedisStore (serverPool emptyServer)).Set "key" (.string "val")).1 = none ∧
    (((NewRedisStore (serverPool emptyServer)).Set "key" (.string "val")).2.GetString "key").1 =
      ("val", none) ∧
    ((NewRedisStore (serverPool emptyServer)).Set "key" (.int64 123)).1 = none ∧
    (((NewRedisStore (serverPool emptyServer)).Set "key" (.int64 123)).2.GetInt64 "key").1 =
      (123, none) ∧
    ((NewRedisStore (serverPool emptyServer)).GetString "invalid_key").1.2 ≠ none ∧
    ((NewRedisStore (serverPool emptyServer)).GetInt64 "invalid_key").1.2 ≠ none :=
  ⟨⟨by decide, rfl⟩, set_then_get emptyServer "key" "val" 123 (by decide) "invalid_key" rfl⟩

/-- C7: on any server and for any key, bound or not, `DeleteKey` returns no error, and a
    `GetString` on that key after it returns the error `redis.ErrNil`. -/
theorem delete_then_get (s : Server) (key : String) :
    ((NewRedisStore (serverPool s)).DeleteKey key).1 = none ∧
    (((NewRedisStore (serverPool s)).DeleteKey key).2.GetString key).1.2 = some GoError.ErrNil ∧
    (((NewRedisStore (serverPool s)).DeleteKey key).2.GetString key).1.2 ≠ none := by
  have h0 : (NewRedisStore (serverPool s)).redis.exec = redisDo := rfl
  obtain ⟨a1, a2, a3⟩ := DeleteKey_server _ h0 key
  have hg : (((NewRedisStore (serverPool s)).DeleteKey key).2.GetString key).1 =
      ("", some GoError.ErrNil) := by
    rw [GetString_server _ a2, a3, put_same]
  refine ⟨a1, ?_, ?_⟩
  · rw [hg]
  · rw [hg]
    simp

theorem incrBy_none (s : Server) (key : String) (d : Int) (hs : s key = none) :
    s.incrBy key d = (.integer d, s.put key (some (.str (strconv.FormatInt d)))) := by
  simp [Server.incrBy, hs]

theorem incrBy_str (s : Server) (key : String) (i d : Int)
    (hs : s key = some (.str (strconv.FormatInt i)))
    (hi : -(2 : Int) ^ 63 ≤ i ∧ i < (2 : Int) ^ 63) :
    s.incrBy key d =
      if i + d < -(2 : Int) ^ 63 ∨ i + d > (2 : Int) ^ 63 - 1 then
        (.error "ERR increment or decrement would overflow", s)
      else (.integer (i + d), s.put key (some (.str (strconv.FormatInt (i + d))))) := by
  simp only [Server.incrBy, hs, string2ll_FormatInt i hi]

theorem incrementTimes_server (key : String) : ∀ (n : Nat) (r : Redis Server) (i : Int),
    r.redis.exec = redisDo → r.redis.remote key = some (.str (strconv.FormatInt i)) →
    0 ≤ i ∧ i < (2 : Int) ^ 63 →
    (∀ e ∈ (incrementTimes key n r).1, e = none) →
    i + n < (2 : Int) ^ 63 ∧ (incrementTimes key n r).2.redis.exec = redisDo ∧
      (incrementTimes key n r).2.redis.remote key = some (.str (strconv.FormatInt (i + n))) := by
  intro n
  induction n with
  | zero =>
    intro r i hr hs hi _
    simpa [incrementTimes] using ⟨hi.2, hr, hs⟩
  | succ n ih =>
    intro r i hr hs hi herr
    obtain ⟨a1, a2, a3⟩ := Increment_server r hr key
    simp only [incrementTimes, List.mem_cons, forall_eq_or_imp] at herr
    rw [incrBy_str _ key i 1 hs (by omega)] at a2 a3
    by_cases hov : i + 1 < -(2 : Int) ^ 63 ∨ i + 1 > (2 : Int) ^ 63 - 1
    · rw [if_pos hov] at a3
      exact absurd rfl (a3.1 herr.1 _)
    · rw [if_neg hov] at a2
      have hs1 : (r.Increment key).2.redis.remote key = some (.str (strconv.FormatInt (i + 1))) := by
        rw [a2]
        exact put_same _ _ _
      obtain ⟨b1, b2, b3⟩ := ih _ (i + 1) a1 hs1 (by omega) herr.2
      refine ⟨?_, ?_, ?_⟩
      · push_cast
        omega
      · simpa [incrementTimes] using b2
      · have : i + ((n + 1 : Nat) : Int) = i + 1 + (n : Int) := by push_cast; ring
        rw [this]
        simpa [incrementTimes] using b3

theorem decrementTimes_server (key : String) : ∀ (n : Nat) (r : Redis Server) (i : Int),
    r.redis.exec = redisDo → r.redis.remote key = some (.str (strconv.FormatInt i)) →
    0 ≤ i - n ∧ i < (2 : Int) ^ 63 →
    (decrementTimes key n r).2.redis.exec = redisDo ∧
      (decrementTimes key n r).2.redis.remote key = some (.str (strconv.FormatInt (i - n))) := by
  intro n
  induction n with
  | zero =>
    intro r i hr hs _
    simpa [decrementTimes] using ⟨hr, hs⟩
  | succ n ih =>
    intro r i hr hs hi
    obtain ⟨a1, a2, _⟩ := Decrement_server r hr key
    have hi' : 0 ≤ i - 1 - (n : Int) := by
      have := hi.1
      push_cast at this
      omega
    rw [incrBy_str _ key i (-1) hs (by omega)] at a2
    have hov : ¬ (i + -1 < -(2 : Int) ^ 63 ∨ i + -1 > (2 : Int) ^ 63 - 1) := by omega
    rw [if_neg hov] at a2
    have hs1 : (r.Decrement key).2.redis.remote key = some (.str (strconv.FormatInt (i - 1))) := by
      rw [a2]
      exact put_same _ _ _
    obtain ⟨b1, b2⟩ := ih _ (i - 1) a1 hs1 ⟨hi', by omega⟩
    refine ⟨?_, ?_⟩
    · simpa [decrementTimes] using b1
    · have : i - ((n + 1 : Nat) : Int) = i - 1 - (n : Int) := by push_cast; ring
      rw [this]
      simpa [decrementTimes] using b2

/-- C8 as stated fails for N = 0 and M = 0: with no call made the key still holds nothing,
    and `GetInt64` returns the value 0 together with the error `redis.ErrNil`. -/
theorem incr_decr_zero_calls :
    emptyServer "key" = none ∧
    (incrementTimes "key" 0 (NewRedisStore (serverPool emptyServer))).1 = [] ∧
    (decrementTimes "key" 0
        (incrementTimes "key" 0 (NewRedisStore (serverPool emptyServer))).2).1 = [] ∧
    ((decrementTimes "key" 0
        (incrementTimes "key" 0 (NewRedisStore (serverPool emptyServer))).2).2.GetInt64 "key").1 =
      (0, some GoError.ErrNil) := by
  decide

/-- C8, amended: for every key holding no value and all N ≥ 1 and M ≤ N, if N calls of
    `Increment` followed by M calls of `Decrement` all return no error, then `GetInt64`
    returns N − M with no error. -/
theorem incr_decr (s : Server) (key : String) (N M : Nat) (h0 : s key = none) (hN : 1 ≤ N)
    (hM : M ≤ N)
    (herr : ∀ e ∈ (incrementTimes key N (NewRedisStore (serverPool s))).1 ++
        (decrementTimes key M (incrementTimes key N (NewRedisStore (serverPool s))).2).1,
      e = none) :
    ((decrementTimes key M
        (incrementTimes key N (NewRedisStore (serverPool s))).2).2.GetInt64 key).1 =
      ((N : Int) - (M : Int), none) := by
  obtain ⟨n, rfl⟩ : ∃ n, N = n + 1 := ⟨N - 1, by omega⟩
  have hr0 : (NewRedisStore (serverPool s)).redis.exec = redisDo := rfl
  have hs0 : (NewRedisStore (serverPool s)).redis.remote key = none := h0
  obtain ⟨a1, a2, _⟩ := Increment_server _ hr0 key
  rw [incrBy_none _ key 1 hs0] at a2
  have hs1 : ((NewRedisStore (serverPool s)).Increment key).2.redis.remote key =
      some (.str (strconv.FormatInt 1)) := by
    rw [a2]
    exact put_same _ _ _
  have herr1 : ∀ e ∈ (incrementTimes key n ((NewRedisStore (serverPool s)).Increment key).2).1,
      e = none := by
    intro e he
    apply herr
    simp only [incrementTimes, List.mem_append, List.mem_cons]
    exact Or.inl (Or.inr he)
  obtain ⟨b1, b2, b3⟩ := incrementTimes_server key n _ 1 a1 hs1 (by omega) herr1
  have hstep : incrementTimes key (n + 1) (NewRedisStore (serverPool s)) =
      (((NewRedisStore (serverPool s)).Increment key).1 ::
          (incrementTimes key n ((NewRedisStore (serverPool s)).Increment key).2).1,
        (incrementTimes key n ((NewRedisStore (serverPool s)).Increment key).2).2) := rfl
  rw [hstep]
  obtain ⟨c1, c2⟩ := decrementTimes_server key M _ (1 + (n : Int)) b2 b3
    ⟨by omega, by omega⟩
  rw [GetInt64_server _ c1, c2]
  have : ((n + 1 : Nat) : Int) - (M : Int) = 1 + (n : Int) - (M : Int) := by push_cast; ring
  rw [this]
  exact ParseInt_FormatInt _ ⟨by omega, by omega⟩

/-- Witness of the amended C8 with the counts of the test: three increments, two decrements. -/
theorem incr_decr_witness :
    (emptyServer "key" = none ∧ 1 ≤ 3 ∧ 2 ≤ 3 ∧
      ∀ e ∈ (incrementTimes "key" 3 (NewRedisStore (serverPool emptyServer))).1 ++
        (decrementTimes "key" 2
          (incrementTimes "key" 3 (NewRedisStore (serverPool emptyServer))).2).1,
      e = none) ∧
    ((decrementTimes "key" 2
        (incrementTimes "key" 3 (NewRedisStore (serverPool emptyServer))).2).2.GetInt64 "key").1 =
      (((3 : Nat) : Int) - ((2 : Nat) : Int), none) :=
  ⟨⟨rfl, by decide, by decide, by decide⟩,
    incr_decr emptyServer "key" 3 2 rfl (by decide) (by decide) (by decide)⟩

theorem listEntry_ne_nil (xs : List String) (h : xs ≠ []) : listEntry xs = some (.list xs) := by
  simp [listEntry, h]

theorem PushItemToList_server (r : Redis Server) (hr : r.redis.exec = redisDo) (key : String)
    (v : Value) (xs : List String) (hs : r.redis.remote key = listEntry xs) :
    (r.PushItemToList key v true).1 = none ∧
      (r.PushItemToList key v true).2.redis.exec = redisDo ∧
      (r.PushItemToList key v true).2.redis.remote key = listEntry (xs ++ [writeArg v]) := by
  simp only [Redis.PushItemToList, Pool.Get, Pool.Do, Pool.Close, hr, redisDo, Server.exec]
  simp only [String.reduceEq, if_false, if_true, List.map_cons, List.map_nil, writeArg,
    Server.push, hs]
  by_cases hx : xs = []
  · subst hx
    simp [listEntry, Server.put]
  · simp [listEntry, hx, Server.put]

theorem pushAll_server (key : String) : ∀ (vs : List Value) (r : Redis Server) (xs : List String),
    r.redis.exec = redisDo → r.redis.remote key = listEntry xs →
    (∀ e ∈ (pushAll key true vs r).1, e = none) ∧
      (pushAll key true vs r).2.redis.exec = redisDo ∧
      (pushAll key true vs r).2.redis.remote key = listEntry (xs ++ vs.map writeArg) := by
  intro vs
  induction vs with
  | nil =>
    intro r xs hr hs
    simpa [pushAll] using ⟨hr, hs⟩
  | cons v vs ih =>
    intro r xs hr hs
    obtain ⟨a1, a2, a3⟩ := PushItemToList_server r hr key v xs hs
    obtain ⟨b1, b2, b3⟩ := ih _ _ a2 a3
    refine ⟨?_, ?_, ?_⟩
    · intro e he
      simp only [pushAll, List.mem_cons] at he
      rcases he with he | he
      · rw [he, a1]
      · exact b1 e he
    · simpa [pushAll] using b2
    · simpa [pushAll] using b3

theorem LengthOfList_server (r : Redis Server) (hr : r.redis.exec = redisDo) (key : String)
    (xs : List String) (hs : r.redis.remote key = listEntry xs) (hlen : xs.length < 2 ^ 63) :
    (r.LengthOfList key).1 = ((xs.length : Int), none) ∧
      (r.LengthOfList key).2.redis.exec = redisDo ∧
      (r.LengthOfList key).2.redis.remote = r.redis.remote := by
  simp only [Redis.LengthOfList, Pool.Get, Pool.Do, Pool.Close, hr, redisDo, Server.exec]
  simp only [String.reduceEq, if_false, if_true, List.map_cons, List.map_nil, writeArg, hs]
  by_cases hx : xs = []
  · subst hx
    simp [listEntry, redisInt, strconv.toInt64]
  · have h1 : strconv.toInt64 (xs.length : Int) = (xs.length : Int) :=
      configuration.toInt64_of_range _ ⟨by omega, by omega⟩
    simp [listEntry, hx, redisInt, h1]

theorem PopItemFromList_back_server (r : Redis Server) (hr : r.redis.exec = redisDo)
    (key : String) (xs : List String) (x : String) (hs : r.redis.remote key = listEntry xs)
    (hx : xs.getLast? = some x) :
    (r.PopItemFromList key DataTypeString true).1 = (Iface.string x, none) ∧
      (r.PopItemFromList key DataTypeString true).2.redis.exec = redisDo ∧
      (r.PopItemFromList key DataTypeString true).2.redis.remote key = listEntry xs.dropLast := by
  have hne : xs ≠ [] := by
    intro h
    simp [h] at hx
  simp only [Redis.PopItemFromList, Pool.Get, Pool.Do, Pool.Close, hr, redisDo, Server.exec]
  simp only [String.reduceEq, if_false, if_true, List.map_cons, List.map_nil, writeArg, hs,
    Server.pop, listEntry_ne_nil xs hne, hx]
  simp [redisString, Server.put]

theorem PopItemFromList_front_server (r : Redis Server) (hr : r.redis.exec = redisDo)
    (key : String) (x : String) (rest : List String)
    (hs : r.redis.remote key = listEntry (x :: rest)) :
    (r.PopItemFromList key DataTypeString false).1 = (Iface.string x, none) ∧
      (r.PopItemFromList key DataTypeString false).2.redis.exec = redisDo ∧
      (r.PopItemFromList key DataTypeString false).2.redis.remote key = listEntry rest := by
  simp only [Redis.PopItemFromList, Pool.Get, Pool.Do, Pool.Close, hr, redisDo, Server.exec]
  simp only [String.reduceEq, if_false, if_true, List.map_cons, List.map_nil, writeArg, hs,
    Server.pop, listEntry_ne_nil (x :: rest) (by simp)]
  simp [redisString, Server.put]

theorem popAll_server (key : String) : ∀ (ends : List Bool) (r : Redis Server) (xs : List String),
    r.redis.exec = redisDo → r.redis.remote key = listEntry xs → ends.length ≤ xs.length →
    (popAll key DataTypeString ends r).1 =
      (expectedPops xs ends).map (fun x => (Iface.string x, none)) := by
  intro ends
  induction ends with
  | nil =>
    intro r xs _ _ _
    simp [popAll, expectedPops]
  | cons b bs ih =>
    intro r xs hr hs hlen
    have hne : xs ≠ [] := by
      intro h
      simp [h] at hlen
    cases b with
    | true =>
      obtain ⟨x, hx⟩ : ∃ x, xs.getLast? = some x :=
        ⟨xs.getLast hne, List.getLast?_eq_getLast _ hne⟩
      obtain ⟨a1, a2, a3⟩ := PopItemFromList_back_server r hr key xs x hs hx
      have hl : bs.length ≤ xs.dropLast.length := by
        simp only [List.length_cons, List.length_dropLast] at hlen ⊢
        omega
      simp only [popAll, expectedPops, hx, List.map_cons, a1, ih _ _ a2 a3 hl]
    | false =>
      cases xs with
      | nil => exact absurd rfl hne
      | cons x rest =>
        obtain ⟨a1, a2, a3⟩ := PopItemFromList_front_server r hr key x rest hs
        have hl : bs.length ≤ rest.length := by
          simp only [List.length_cons] at hlen
          omega
        simp only [popAll, expectedPops, List.map_cons, a1, ih _ _ a2 a3 hl]

/-- C9: after pushing a non-empty sequence of N strings at the end of a key that holds
    nothing, every push having returned no error, `LengthOfList` returns N, a pop at the end
    returns the latest-pushed item and a pop at the front the earliest-pushed one, and in any
    run of at most N pops each pop returns, as a string and with no error, the latest-pushed
    or the earliest-pushed of the items that remain. -/
theorem push_length_pop (s : Server) (key : String) (items : List String) (ends : List Bool)
    (h0 : s key = none) (hne : items ≠ []) (hlen : items.length < 2 ^ 63)
    (hends : ends.length ≤ items.length) :
    (∀ e ∈ (pushAll key true (items.map Value.string) (NewRedisStore (serverPool s))).1,
      e = none) ∧
    ((pushAll key true (items.map Value.string) (NewRedisStore (serverPool s))).2.LengthOfList
        key).1 = ((items.length : Int), none) ∧
    ((pushAll key true (items.map Value.string) (NewRedisStore (serverPool s))).2.PopItemFromList
        key DataTypeString true).1 = (Iface.string (items.getLast hne), none) ∧
    ((pushAll key true (items.map Value.string) (NewRedisStore (serverPool s))).2.PopItemFromList
        key DataTypeString false).1 = (Iface.string (items.head hne), none) ∧
    (popAll key DataTypeString ends
        ((pushAll key true (items.map Value.string)
          (NewRedisStore (serverPool s))).2.LengthOfList key).2).1 =
      (expectedPops items ends).map (fun x => (Iface.string x, none)) := by
  have hr0 : (NewRedisStore (serverPool s)).redis.exec = redisDo := rfl
  have hs0 : (NewRedisStore (serverPool s)).redis.remote key = listEntry [] := h0
  obtain ⟨a1, a2, a3⟩ := pushAll_server key (items.map Value.string) _ [] hr0 hs0
  have hw : List.map writeArg (List.map Value.string items) = items := by
    simp [List.map_map, Function.comp_def, writeArg]
  rw [List.nil_append, hw] at a3
  obtain ⟨b1, b2, b3⟩ := LengthOfList_server _ a2 key items a3 hlen
  refine ⟨a1, b1, ?_, ?_, ?_⟩
  · exact (PopItemFromList_back_server _ a2 key items _ a3
      (List.getLast?_eq_getLast _ hne)).1
  · cases items with
    | nil => exact absurd rfl hne
    | cons x rest => exact (PopItemFromList_front_server _ a2 key x rest a3).1
  · exact popAll_server key ends _ items b2 (by rw [b3]; exact a3) hends

/-- Witness of C9 with the run of the test: four strings, the length, a pop at the end and
    then a pop at the front. -/
theorem push_length_pop_witness :
    (emptyServer "lkey" = none ∧
      ["abcdefg", "ajsdfjalsdfasdf", "asdfasdfasdf", "adsfasdfasfasdfa"].length < 2 ^ 63 ∧
      [true, false].length ≤
        ["abcdefg", "ajsdfjalsdfasdf", "asdfasdfasdf", "adsfasdfasfasdfa"].length) ∧
    (expectedPops ["abcdefg", "ajsdfjalsdfasdf", "asdfasdfasdf", "adsfasdfasfasdfa"]
      [true, false] = ["adsfasdfasfasdfa", "abcdefg"]) ∧
    (popAll "lkey" DataTypeString [true, false]
        ((pushAll "lkey" true
          (["abcdefg", "ajsdfjalsdfasdf", "asdfasdfasdf", "adsfasdfasfasdfa"].map Value.string)
          (NewRedisStore (serverPool emptyServer))).2.LengthOfList "lkey").2).1 =
      (expectedPops ["abcdefg", "ajsdfjalsdfasdf", "asdfasdfasdf", "adsfasdfasfasdfa"]
        [true, false]).map (fun x => (Iface.string x, none)) :=
  ⟨⟨rfl, by decide, by decide⟩, by decide,
    (push_length_pop emptyServer "lkey"
      ["abcdefg", "ajsdfjalsdfasdf", "asdfasdfasdf", "adsfasdfasfasdfa"] [true, false] rfl
      (by decide) (by decide) (by decide)).2.2.2.2⟩

theorem lrange_zero (xs : List String) (k : Nat) :
    lrange xs 0 (k : Int) = xs.take (k + 1) := by
  unfold lrange
  by_cases hx : xs = []
  · subst hx
    simp
  · have hpos : 0 < xs.length := List.length_pos.mpr hx
    have h1 : ¬ ((k : Int) < 0) := by omega
    have h2 : ¬ ((0 : Int) > (k : Int) ∨ (0 : Int) ≥ (xs.length : Int)) := by omega
    simp only [lt_self_iff_false, if_false, h1, h2, Int.toNat_zero, List.drop_zero, sub_zero]
    by_cases hk : (k : Int) ≥ (xs.length : Int)
    · simp only [hk, if_true]
      have e1 : ((xs.length : Int) - 1 + 1).toNat = xs.length := by omega
      rw [e1, List.take_of_length_le (le_refl _), List.take_of_length_le (by omega)]
      have h3 : ¬ ((0 : Int) ≥ (xs.length : Int)) := by omega
      simp only [false_or, h3, if_false]
    · simp only [hk, if_false]
      have e1 : ((k : Int) + 1).toNat = k + 1 := by omega
      rw [e1]
      have h3 : ¬ ((0 : Int) ≥ (xs.length : Int)) := by omega
      simp only [false_or, h3, if_false]

theorem stringsLoop_bulk (xs : List String) : stringsLoop (xs.map Elem.bulk) = some xs := by
  induction xs with
  | nil => rfl
  | cons x xs ih => simp [stringsLoop, ih]

theorem scanInts_bulk (ns : List Int)
    (h : ∀ n ∈ ns, -(2 : Int) ^ 63 ≤ n ∧ n < (2 : Int) ^ 63) :
    scanInts ((ns.map strconv.FormatInt).map Elem.bulk) = (ns, none) := by
  induction ns with
  | nil => rfl
  | cons n ns ih =>
    have hn := h n (List.mem_cons_self _ _)
    have ih' := ih (fun m hm => h m (List.mem_cons_of_mem _ hm))
    simp only [List.map_cons, scanInts, convertAssignInt, Atoi_FormatInt n hn, ih']

theorem ItemsFromList_server (r : Redis Server) (hr : r.redis.exec = redisDo) (key : String)
    (xs : List String) (hs : r.redis.remote key = listEntry xs) (k : Nat) (hk : k < 2 ^ 63) :
    (r.redis.exec r.redis.remote "LRANGE" [.string key, .int 0, .int (k : Int)]).1 =
      (Reply.array ((xs.take (k + 1)).map Elem.bulk), none) := by
  have hz : string2ll (strconv.FormatInt 0).data = some 0 := string2ll_FormatInt 0 (by omega)
  have hkk : string2ll (strconv.FormatInt (k : Int)).data = some (k : Int) :=
    string2ll_FormatInt _ ⟨by omega, by omega⟩
  simp only [hr, redisDo, Server.exec]
  simp only [String.reduceEq, if_false, if_true, List.map_cons, List.map_nil, writeArg,
    Server.range, hz, hkk, hs]
  by_cases hx : xs = []
  · subst hx
    simp [listEntry]
  · simp [listEntry, hx, lrange_zero]

theorem ItemsFromList_strings (r : Redis Server) (key : String) (start end_ : Int) (d : DoResult)
    (hd : (r.redis.exec r.redis.remote "LRANGE" [.string key, .int start, .int end_]).1 = d) :
    (r.ItemsFromList key DataTypeString start end_).1 =
      (Iface.strings (redisStrings d.1 d.2).1, (redisStrings d.1 d.2).2) := by
  subst hd
  simp [Redis.ItemsFromList, Pool.Get, Pool.Do]

theorem ItemsFromList_ints (r : Redis Server) (key : String) (start end_ : Int) (d : DoResult)
    (hd : (r.redis.exec r.redis.remote "LRANGE" [.string key, .int start, .int end_]).1 = d) :
    (r.ItemsFromList key DataTypeInt start end_).1 =
      (Iface.ints (redisInts d.1 d.2).1, (redisInts d.1 d.2).2) := by
  subst hd
  simp [Redis.ItemsFromList, Pool.Get, Pool.Do, DataTypeInt, DataTypeString]

/-- C10: after back-pushing items onto a key that holds nothing, `ItemsFromList` with start 0
    and end k returns the first k+1 items in push order (all of them when there are fewer):
    as strings under `DataTypeString` for pushed strings, as ints under `DataTypeInt` for
    pushed ints. -/
theorem items_from_zero (s : Server) (key : String) (strs : List String) (nums : List Int)
    (k : Nat) (h0 : s key = none)
    (hnums : ∀ n ∈ nums, -(2 : Int) ^ 63 ≤ n ∧ n < (2 : Int) ^ 63) (hk : k < 2 ^ 63) :
    ((pushAll key true (strs.map Value.string) (NewRedisStore (serverPool s))).2.ItemsFromList
        key DataTypeString 0 (k : Int)).1 = (Iface.strings (strs.take (k + 1)), none) ∧
    ((pushAll key true (nums.map Value.int) (NewRedisStore (serverPool s))).2.ItemsFromList
        key DataTypeInt 0 (k : Int)).1 = (Iface.ints (nums.take (k + 1)), none) := by
  have hr0 : (NewRedisStore (serverPool s)).redis.exec = redisDo := rfl
  have hs0 : (NewRedisStore (serverPool s)).redis.remote key = listEntry [] := h0
  constructor
  · obtain ⟨_, a2, a3⟩ := pushAll_server key (strs.map Value.string) _ [] hr0 hs0
    have hw : List.map writeArg (List.map Value.string strs) = strs := by
      simp [List.map_map, Function.comp_def, writeArg]
    rw [List.nil_append, hw] at a3
    rw [ItemsFromList_strings _ key 0 k _ (ItemsFromList_server _ a2 key strs a3 k hk)]
    simp only [redisStrings, stringsLoop_bulk]
  · obtain ⟨_, a2, a3⟩ := pushAll_server key (nums.map Value.int) _ [] hr0 hs0
    have hw : List.map writeArg (List.map Value.int nums) = nums.map strconv.FormatInt := by
      simp [List.map_map, Function.comp_def, writeArg]
    rw [List.nil_append, hw] at a3
    rw [ItemsFromList_ints _ key 0 k _ (ItemsFromList_server _ a2 key _ a3 k hk)]
    have ht : List.take (k + 1) (List.map strconv.FormatInt nums) =
        List.map strconv.FormatInt (List.take (k + 1) nums) := by
      rw [List.map_take]
    have hsub : ∀ n ∈ List.take (k + 1) nums, -(2 : Int) ^ 63 ≤ n ∧ n < (2 : Int) ^ 63 :=
      fun n hn => hnums n (List.mem_of_mem_take hn)
    simp only [redisInts, redisValues, ht, scanInts_bulk _ hsub]

/-- Witness of C10 with the lists of the tests: four strings read up to index 2, three ints
    read up to index 3. -/
theorem items_from_zero_witness :
    (emptyServer "lkey" = none ∧
      (∀ n ∈ [(1 : Int), 2, 4], -(2 : Int) ^ 63 ≤ n ∧ n < (2 : Int) ^ 63) ∧ 2 < 2 ^ 63) ∧
    ((pushAll "lkey" true
        (["abcdefg", "ajsdfjalsdfasdf", "asdfasdfasdf", "adsfasdfasfasdfa"].map Value.string)
        (NewRedisStore (serverPool emptyServer))).2.ItemsFromList
        "lkey" DataTypeString 0 ((2 : Nat) : Int)).1 =
      (Iface.strings
        (["abcdefg", "ajsdfjalsdfasdf", "asdfasdfasdf", "adsfasdfasfasdfa"].take (2 + 1)), none) ∧
    ((pushAll "lkey" true ([(1 : Int), 2, 4].map Value.int)
        (NewRedisStore (serverPool emptyServer))).2.ItemsFromList
        "lkey" DataTypeInt 0 ((2 : Nat) : Int)).1 =
      (Iface.ints ([(1 : Int), 2, 4].take (2 + 1)), none) :=
  ⟨⟨rfl, by decide, by decide⟩,
    items_from_zero emptyServer "lkey"
      ["abcdefg", "ajsdfjalsdfasdf", "asdfasdfasdf", "adsfasdfasfasdfa"] [1, 2, 4] 2 rfl
      (by decide) (by decide)⟩

end store

/-! ## Theorems: typed pops and the pop with an unrecognized tag -/

namespace store

/-- A pop at the end of a list on the modelled server, under any tag: the switch sees the
    bulk reply holding the last element, and the server keeps the list without it. -/
theorem PopItemFromList_back_reply (r : Redis Server) (hr : r.redis.exec = redisDo)
    (key : String) (xs : List String) (x : String) (dataType : Int)
    (hs : r.redis.remote key = listEntry xs) (hx : xs.getLast? = some x) :
    (r.PopItemFromList key dataType true).1 =
        (if dataType = DataTypeString then (Iface.string x, none)
         else if dataType = DataTypeBool then
           (Iface.bool (strconv.ParseBool x).1, (strconv.ParseBool x).2)
         else if dataType = DataTypeInt then
           (Iface.int (strconv.ParseInt x).1, (strconv.ParseInt x).2)
         else if dataType = DataTypeInt64 then
           (Iface.int64 (strconv.ParseInt x).1, (strconv.ParseInt x).2)
         else (Iface.nil, some (GoError.new "Invalid data type"))) ∧
      (r.PopItemFromList key dataType true).2.redis.exec = redisDo ∧
      (r.PopItemFromList key dataType true).2.redis.remote =
        r.redis.remote.put key (listEntry xs.dropLast) := by
  have hne : xs ≠ [] := by
    intro h
    simp [h] at hx
  simp only [Redis.PopItemFromList, Pool.Get, Pool.Do, Pool.Close, hr, redisDo, Server.exec]
  simp only [String.reduceEq, if_false, if_true, List.map_cons, List.map_nil, writeArg, hs,
    Server.pop, listEntry_ne_nil xs hne, hx]
  simp [redisString, redisBool, redisInt, redisInt64]

/-- A pop at the front of a list on the modelled server, under any tag. -/
theorem PopItemFromList_front_reply (r : Redis Server) (hr : r.redis.exec = redisDo)
    (key : String) (x : String) (rest : List String) (dataType : Int)
    (hs : r.redis.remote key = listEntry (x :: rest)) :
    (r.PopItemFromList key dataType false).1 =
        (if dataType = DataTypeString then (Iface.string x, none)
         else if dataType = DataTypeBool then
           (Iface.bool (strconv.ParseBool x).1, (strconv.ParseBool x).2)
         else if dataType = DataTypeInt then
           (Iface.int (strconv.ParseInt x).1, (strconv.ParseInt x).2)
         else if dataType = DataTypeInt64 then
           (Iface.int64 (strconv.ParseInt x).1, (strconv.ParseInt x).2)
         else (Iface.nil, some (GoError.new "Invalid data type"))) ∧
      (r.PopItemFromList key dataType false).2.redis.exec = redisDo ∧
      (r.PopItemFromList key dataType false).2.redis.remote =
        r.redis.remote.put key (listEntry rest) := by
  simp only [Redis.PopItemFromList, Pool.Get, Pool.Do, Pool.Close, hr, redisDo, Server.exec]
  simp only [String.reduceEq, if_false, if_true, List.map_cons, List.map_nil, writeArg, hs,
    Server.pop, listEntry_ne_nil (x :: rest) (by simp)]
  simp [redisString, redisBool, redisInt, redisInt64]

/-- A run of `m` pops at the end, when each pop decodes the element it takes with `f`:
    the results are the decoded elements, last one first. -/
theorem popAll_back_server (key : String) (dataType : Int) (f : String → Iface × Option GoError)
    (hf : ∀ (r : Redis Server) (xs : List String) (x : String), r.redis.exec = redisDo →
      r.redis.remote key = listEntry xs → xs.getLast? = some x →
      (r.PopItemFromList key dataType true).1 = f x) :
    ∀ (m : Nat) (r : Redis Server) (xs : List String), r.redis.exec = redisDo →
      r.redis.remote key = listEntry xs → m ≤ xs.length →
      (popAll key dataType (List.replicate m true) r).1 = (xs.reverse.take m).map f := by
  intro m
  induction m with
  | zero =>
    intro r xs _ _ _
    simp [popAll]
  | succ m ih =>
    intro r xs hr hs hlen
    rcases List.eq_nil_or_concat xs with hnil | ⟨ys, x, hxs⟩
    · subst hnil
      simp at hlen
    · rw [List.concat_eq_append] at hxs
      subst hxs
      have hx : (ys ++ [x]).getLast? = some x := List.getLast?_concat ys
      obtain ⟨_, a2, a3⟩ := PopItemFromList_back_reply r hr key (ys ++ [x]) x dataType hs hx
      have a1 := hf r (ys ++ [x]) x hr hs hx
      have hs1 : (r.PopItemFromList key dataType true).2.redis.remote key = listEntry ys := by
        rw [a3, put_same, List.dropLast_concat]
      have hl : m ≤ ys.length := by
        simp only [List.length_append, List.length_singleton] at hlen
        omega
      simp only [List.replicate_succ, popAll, a1, ih _ ys a2 hs1 hl, List.reverse_append,
        List.reverse_singleton, List.singleton_append, List.take_succ_cons, List.map_cons]

end store

namespace store

theorem ParseBool_writeArg (b : Bool) : strconv.ParseBool (writeArg (Value.bool b)) = (b, none) := by
  cases b <;> decide

theorem popAll_bool_server (key : String) (bools : List Bool) (m : Nat) (r : Redis Server)
    (hr : r.redis.exec = redisDo)
    (hs : r.redis.remote key = listEntry (bools.map (fun b => writeArg (Value.bool b))))
    (hm : m ≤ bools.length) :
    (popAll key DataTypeBool (List.replicate m true) r).1 =
      (bools.reverse.take m).map (fun b => (Iface.bool b, none)) := by
  rw [popAll_back_server key DataTypeBool
    (fun x => (Iface.bool (strconv.ParseBool x).1, (strconv.ParseBool x).2))
    (fun r xs x hr hs hx => by
      have h := (PopItemFromList_back_reply r hr key xs x DataTypeBool hs hx).1
      simpa [DataTypeBool, DataTypeString] using h)
    m r _ hr hs (by simpa using hm)]
  rw [← List.map_reverse, ← List.map_take, List.map_map]
  apply List.map_congr_left
  intro b _
  simp only [Function.comp, ParseBool_writeArg]

theorem popAll_int_server (key : String) (ints : List Int) (m : Nat) (r : Redis Server)
    (hr : r.redis.exec = redisDo)
    (hs : r.redis.remote key = listEntry (ints.map (fun n => writeArg (Value.int n))))
    (hints : ∀ n ∈ ints, -(2 : Int) ^ 63 ≤ n ∧ n < (2 : Int) ^ 63) (hm : m ≤ ints.length) :
    (popAll key DataTypeInt (List.replicate m true) r).1 =
      (ints.reverse.take m).map (fun n => (Iface.int n, none)) := by
  rw [popAll_back_server key DataTypeInt
    (fun x => (Iface.int (strconv.ParseInt x).1, (strconv.ParseInt x).2))
    (fun r xs x hr hs hx => by
      have h := (PopItemFromList_back_reply r hr key xs x DataTypeInt hs hx).1
      simpa [DataTypeBool, DataTypeString, DataTypeInt] using h)
    m r _ hr hs (by simpa using hm)]
  rw [← List.map_reverse, ← List.map_take, List.map_map]
  apply List.map_congr_left
  intro n hn
  have hr := hints n (List.mem_reverse.mp (List.mem_of_mem_take hn))
  simp only [Function.comp, writeArg, ParseInt_FormatInt n hr]

theorem popAll_int64_server (key : String) (ints : List Int) (m : Nat) (r : Redis Server)
    (hr : r.redis.exec = redisDo)
    (hs : r.redis.remote key = listEntry (ints.map (fun n => writeArg (Value.int64 n))))
    (hints : ∀ n ∈ ints, -(2 : Int) ^ 63 ≤ n ∧ n < (2 : Int) ^ 63) (hm : m ≤ ints.length) :
    (popAll key DataTypeInt64 (List.replicate m true) r).1 =
      (ints.reverse.take m).map (fun n => (Iface.int64 n, none)) := by
  rw [popAll_back_server key DataTypeInt64
    (fun x => (Iface.int64 (strconv.ParseInt x).1, (strconv.ParseInt x).2))
    (fun r xs x hr hs hx => by
      have h := (PopItemFromList_back_reply r hr key xs x DataTypeInt64 hs hx).1
      simpa [DataTypeBool, DataTypeString, DataTypeInt, DataTypeInt64] using h)
    m r _ hr hs (by simpa using hm)]
  rw [← List.map_reverse, ← List.map_take, List.map_map]
  apply List.map_congr_left
  intro n hn
  have hr := hints n (List.mem_reverse.mp (List.mem_of_mem_take hn))
  simp only [Function.comp, writeArg, ParseInt_FormatInt n hr]

/-- C11: after pushing a sequence of bools, of ints or of int64s at the end of a key that
    holds nothing, successive pops at the end with the matching tag (any number of them up to
    the number of values pushed) return, each with no error, the pushed values in reverse
    push order, each as a value of the requested Go type holding the original value. -/
theorem typed_push_pop (s : Server) (key : String) (bools : List Bool) (ints int64s : List Int)
    (mb mi ml : Nat) (h0 : s key = none)
    (hints : ∀ n ∈ ints, -(2 : Int) ^ 63 ≤ n ∧ n < (2 : Int) ^ 63)
    (hint64s : ∀ n ∈ int64s, -(2 : Int) ^ 63 ≤ n ∧ n < (2 : Int) ^ 63)
    (hmb : mb ≤ bools.length) (hmi : mi ≤ ints.length) (hml : ml ≤ int64s.length) :
    (popAll key DataTypeBool (List.replicate mb true)
        (pushAll key true (bools.map Value.bool) (NewRedisStore (serverPool s))).2).1 =
      (bools.reverse.take mb).map (fun b => (Iface.bool b, none)) ∧
    (popAll key DataTypeInt (List.replicate mi true)
        (pushAll key true (ints.map Value.int) (NewRedisStore (serverPool s))).2).1 =
      (ints.reverse.take mi).map (fun n => (Iface.int n, none)) ∧
    (popAll key DataTypeInt64 (List.replicate ml true)
        (pushAll key true (int64s.map Value.int64) (NewRedisStore (serverPool s))).2).1 =
      (int64s.reverse.take ml).map (fun n => (Iface.int64 n, none)) := by
  have hr0 : (NewRedisStore (serverPool s)).redis.exec = redisDo := rfl
  have hs0 : (NewRedisStore (serverPool s)).redis.remote key = listEntry [] := h0
  refine ⟨?_, ?_, ?_⟩
  · obtain ⟨_, a2, a3⟩ := pushAll_server key (bools.map Value.bool) _ [] hr0 hs0
    rw [List.nil_append, List.map_map] at a3
    exact popAll_bool_server key bools mb _ a2 a3 hmb
  · obtain ⟨_, a2, a3⟩ := pushAll_server key (ints.map Value.int) _ [] hr0 hs0
    rw [List.nil_append, List.map_map] at a3
    exact popAll_int_server key ints mi _ a2 a3 hints hmi
  · obtain ⟨_, a2, a3⟩ := pushAll_server key (int64s.map Value.int64) _ [] hr0 hs0
    rw [List.nil_append, List.map_map] at a3
    exact popAll_int64_server key int64s ml _ a2 a3 hint64s hml

/-- Witness of C11 with the values of the tests: three bools, three ints and three int64s,
    each list popped three times. -/
theorem typed_push_pop_witness :
    (emptyServer "key" = none ∧
      (∀ n ∈ [(1 : Int), 2, 3], -(2 : Int) ^ 63 ≤ n ∧ n < (2 : Int) ^ 63) ∧
      3 ≤ [true, false, true].length ∧ 3 ≤ [(1 : Int), 2, 3].length) ∧
    (popAll "key" DataTypeBool (List.replicate 3 true)
        (pushAll "key" true ([true, false, true].map Value.bool)
          (NewRedisStore (serverPool emptyServer))).2).1 =
      ([true, false, true].reverse.take 3).map (fun b => (Iface.bool b, none)) ∧
    (popAll "key" DataTypeInt (List.replicate 3 true)
        (pushAll "key" true ([(1 : Int), 2, 3].map Value.int)
          (NewRedisStore (serverPool emptyServer))).2).1 =
      ([(1 : Int), 2, 3].reverse.take 3).map (fun n => (Iface.int n, none)) ∧
    (popAll "key" DataTypeInt64 (List.replicate 3 true)
        (pushAll "key" true ([(1 : Int), 2, 3].map Value.int64)
          (NewRedisStore (serverPool emptyServer))).2).1 =
      ([(1 : Int), 2, 3].reverse.take 3).map (fun n => (Iface.int64 n, none)) :=
  ⟨⟨rfl, by decide, by decide, by decide⟩,
    typed_push_pop emptyServer "key" [true, false, true] [1, 2, 3] [1, 2, 3] 3 3 3 rfl
      (by decide) (by decide) (by decide) (by decide) (by decide)⟩

end store

namespace store

/-- C12: for a key holding a non-empty list and a tag outside the four data types,
    `PopItemFromList` issues its pop command (`RPOP` when `atEnd`, `LPOP` otherwise) exactly
    once, and the server answers with the element it took; the call then returns a nil value
    and the error "Invalid data type", and the list on the server has lost that element: it is
    one element shorter, every other key being untouched. -/
theorem pop_unrecognized_tag_consumes (s : Server) (key : String) (xs : List String)
    (dataType : Int) (atEnd : Bool) (hs : s key = some (.list xs)) (hne : xs ≠ [])
    (ht : dataType ≠ DataTypeString ∧ dataType ≠ DataTypeBool ∧ dataType ≠ DataTypeInt ∧
      dataType ≠ DataTypeInt64) :
    ((NewRedisStore (serverPool s)).PopItemFromList key dataType atEnd).2.redis.trace =
      [⟨0, if atEnd then "RPOP" else "LPOP", [Value.string key],
        Reply.bulk (if atEnd then xs.getLast hne else xs.head hne), none⟩] ∧
    ((NewRedisStore (serverPool s)).PopItemFromList key dataType atEnd).1 =
      (Iface.nil, some (GoError.new "Invalid data type")) ∧
    (GoError.new "Invalid data type").Error = "Invalid data type" ∧
    ((NewRedisStore (serverPool s)).PopItemFromList key dataType atEnd).2.redis.remote =
      s.put key (listEntry (if atEnd then xs.dropLast else xs.tail)) ∧
    (if atEnd then xs.dropLast else xs.tail).length + 1 = xs.length := by
  obtain ⟨h0, h1, h2, h3⟩ := ht
  cases atEnd with
  | true =>
    have hx : xs.getLast? = some (xs.getLast hne) := List.getLast?_eq_getLast _ hne
    have hl : xs.dropLast.length + 1 = xs.length := by
      have := List.length_pos.mpr hne
      simp only [List.length_dropLast]
      omega
    simp only [Redis.PopItemFromList, NewRedisStore, serverPool, Pool.Get, Pool.Do, Pool.Close,
      redisDo, Server.exec]
    simp only [String.reduceEq, if_false, if_true, List.map_cons, List.map_nil, writeArg, hs,
      Server.pop, hx, h0, h1, h2, h3]
    have hpos := List.length_pos.mpr hne
    simp only [GoError.Error, List.length_dropLast, List.nil_append, and_self, true_and]
    omega
  | false =>
    cases xs with
    | nil => exact absurd rfl hne
    | cons x rest =>
      simp only [Redis.PopItemFromList, NewRedisStore, serverPool, Pool.Get, Pool.Do, Pool.Close,
        redisDo, Server.exec]
      simp only [String.reduceEq, if_false, if_true, List.map_cons, List.map_nil, writeArg, hs,
        Server.pop, h0, h1, h2, h3]
      simp [GoError.Error]

/-- Witness of C12 with the list and the tag of the test: one element, popped at the end. -/
theorem pop_unrecognized_tag_consumes_witness :
    ((emptyServer.put "key" (some (.list ["1"]))) "key" = some (.list ["1"]) ∧
      ([("1" : String)] ≠ []) ∧
      ((23123123 : Int) ≠ DataTypeString ∧ (23123123 : Int) ≠ DataTypeBool ∧
        (23123123 : Int) ≠ DataTypeInt ∧ (23123123 : Int) ≠ DataTypeInt64)) ∧
    ((NewRedisStore (serverPool (emptyServer.put "key" (some (.list ["1"]))))).PopItemFromList
        "key" 23123123 true).1 = (Iface.nil, some (GoError.new "Invalid data type")) ∧
    ((NewRedisStore (serverPool (emptyServer.put "key" (some (.list ["1"]))))).PopItemFromList
        "key" 23123123 true).2.redis.remote =
      (emptyServer.put "key" (some (.list ["1"]))).put "key"
        (listEntry (if true = true then [("1" : String)].dropLast else [("1" : String)].tail)) :=
  ⟨⟨by decide, by decide, by decide⟩,
    (pop_unrecognized_tag_consumes (emptyServer.put "key" (some (.list ["1"]))) "key" ["1"]
      23123123 true (by decide) (by decide) (by decide)).2.1,
    (pop_unrecognized_tag_consumes (emptyServer.put "key" (some (.list ["1"]))) "key" ["1"]
      23123123 true (by decide) (by decide) (by decide)).2.2.2.1⟩

end store
